import Mathlib

/-!
# Smut Wrapped — verification of the harvesting / aggregation core

A shallow embedding of the core logic of the Smut-Wrapped repository:

* the Stats Analyzer (the evolved version bundled in the renderer, which is
  the one the Visualizer consumes: moodStats normalised over the mood-tagged
  subset, rarestPairs, bookmarkStats), sources: analyzer module;
* the filter stage applyFilters (identical in both app evolutions);
* the scraper orchestration of scraper.js: mergeItems, enrichWithMetadata,
  scrapeReadingHistory, scrapeBookmarks, scrapeAll, modelled as a pure
  function from an oracle environment (fetch capability, parsed page counts,
  cancellation point) to an event trace (fetches, waits, cancellation checks,
  progress events) plus a final result.

Modelling conventions:

* JS numbers that are always non-negative integers in the program are Nat;
  Math.round(x) for x = 100*c/T is embedded as (200*c + T) / (2*T) in Nat
  (floor of x + 1/2, which is what Math.round computes for non-negative x);
  progress percents, which are genuinely fractional, are Rat.
* JS null/undefined fields are Option; the or-default idioms (x || 0,
  x || 1, x || "Unknown") are embedded with the exact JS truthiness
  semantics (0 and "" are falsy).
* Array.prototype.sort with a numeric comparator is a stable sort
  (ES2019); it is embedded as List.insertionSort with the corresponding
  non-strict relation, which computes the same stable reordering.
* fields of the statistics object that no claim mentions (formatted strings,
  top fandoms/characters/tags/authors, completion stats, date-keyed
  aggregates, reading-time, size preference, top trope tag, summary) are
  omitted from the embedding; they are computed independently in the source
  and do not feed into the embedded fields.
-/

/-! ## JS-idiom helpers -/

/-- JS `x || d` for an optional number: `null`/`undefined` and `0` are falsy. -/
def jsOrNat (v : Option Nat) (d : Nat) : Nat :=
  match v with
  | none => d
  | some n => if n = 0 then d else n

/-- JS `x || 0` for an optional number (identical to `jsOrNat v 0`,
but kept separate because the source writes it at many sites). -/
def jsOr0 (v : Option Nat) : Nat :=
  match v with
  | none => 0
  | some n => n

/-- JS `x || d` for an optional string: `null`/`undefined` and `""` are falsy. -/
def jsStrOr (v : Option String) (d : String) : String :=
  match v with
  | none => d
  | some s => if s = "" then d else s

/-- JS `x || null` for an optional string: collapses `""` to `null`. -/
def jsStrOrNull (v : Option String) : Option String :=
  match v with
  | none => none
  | some s => if s = "" then none else some s

/-- `Math.round((100 * count) / total)` on non-negative operands:
floor of `100*count/total + 1/2`, i.e. `(200*count + total) / (2*total)`
in natural-number division. -/
def jsRoundPct (count total : Nat) : Nat :=
  (200 * count + total) / (2 * total)

/-- Lower-casing a string character-wise (JS `toLowerCase` on the
ASCII tag vocabulary the source compares against). -/
def lowerStr (s : String) : String :=
  ⟨s.data.map Char.toLower⟩

/-- Is `sub` a contiguous sublist of `l`? (JS `String.prototype.includes`.) -/
def listInfixB (sub : List Char) : List Char → Bool
  | [] => sub.isEmpty
  | c :: rest => sub.isPrefixOf (c :: rest) || listInfixB sub rest

/-- JS `s.includes(sub)`. -/
def jsIncludes (s sub : String) : Bool :=
  listInfixB sub.data s.data

/-! ## Data model

`WorkItem` is the record shape built by `parseHistoryItem` /
`parseBookmarkItem` and later mutated by `enrichWithMetadata`
(`Object.assign`).  `source` and `isBookmarked` are carried because the
analyzer's bookmark statistics read them, even though no scraper code path
ever sets them (only `isBookmark` is ever set) — that mismatch is the
subject of one of the implicit claims. -/

structure WorkItem where
  workId : String
  title : String
  authors : List String
  fandoms : List String
  visitCount : Nat
  lastVisited : Option String
  warnings : List String
  relationships : List String
  characters : List String
  freeformTags : List String
  wordCount : Option Nat
  rating : Option String
  kudos : Option Nat
  bookmarks : Option Nat
  hits : Option Nat
  chapters : Option String
  complete : Option Bool
  datePublished : Option String
  dateUpdated : Option String
  isBookmark : Bool
  source : Option String
  isBookmarked : Bool
deriving DecidableEq

/-- The object returned by `fetchWorkMetadata` (detail-page scrape). -/
structure WorkMeta where
  workId : String
  rating : String
  warnings : List String
  fandoms : List String
  relationships : List String
  characters : List String
  freeformTags : List String
  wordCount : Option Nat
  chapters : Option String
  kudos : Option Nat
  bookmarks : Option Nat
  hits : Option Nat
  datePublished : Option String
  dateUpdated : Option String
  complete : Option Bool
deriving DecidableEq

/-- `Object.assign(item, metadata)`: every own property of the metadata
object overwrites the corresponding field of the item (including `null`
values); fields absent from the metadata object (title, authors,
visitCount, lastVisited, isBookmark, …) are kept. -/
def assignMeta (it : WorkItem) (m : WorkMeta) : WorkItem :=
  { it with
    workId := m.workId
    rating := some m.rating
    warnings := m.warnings
    fandoms := m.fandoms
    relationships := m.relationships
    characters := m.characters
    freeformTags := m.freeformTags
    wordCount := m.wordCount
    chapters := m.chapters
    kudos := m.kudos
    bookmarks := m.bookmarks
    hits := m.hits
    datePublished := m.datePublished
    dateUpdated := m.dateUpdated
    complete := m.complete }

/-! ## Analyzer: countOccurrences / getTopN -/

/-- One `counts.set(key, (counts.get(key) || 0) + 1)` step on a JS `Map`
modelled as an insertion-ordered association list: an existing key keeps
its position, a new key is appended. -/
def bumpCount (m : List (String × Nat)) (key : String) : List (String × Nat) :=
  if m.any (fun e => e.1 == key) then
    m.map (fun e => if e.1 == key then (e.1, e.2 + 1) else e)
  else
    m ++ [(key, 1)]

/-- `countOccurrences`: counts occurrences, skipping falsy (empty) strings,
preserving first-encounter key order. -/
def countOccurrences (items : List String) : List (String × Nat) :=
  items.foldl (fun m item => if item = "" then m else bumpCount m item) []

/-- JS `map.get(key) || 0`. -/
def mapGetNat (m : List (String × Nat)) (key : String) : Nat :=
  ((m.find? (fun e => e.1 == key)).map (fun e => e.2)).getD 0

/-- `getTopN`: stable sort descending by count (JS comparator
`(a, b) => b[1] - a[1]` under the ES2019 stable-sort guarantee), then
take the first `limit` entries. -/
def getTopN (m : List (String × Nat)) (limit : Nat) : List (String × Nat) :=
  (List.insertionSort (fun a b => b.2 ≤ a.2) m).take limit

/-! ## Analyzer: per-aggregate definitions -/

def fluffTagList : List String :=
  ["Fluff", "Tooth-Rotting Fluff", "Domestic Fluff", "Romantic Fluff"]

def angstTagList : List String :=
  ["Angst", "Heavy Angst", "Angst with a Happy Ending", "Angst and Hurt/Comfort"]

/-- `tags.some(t => fluffTags.some(f => t.toLowerCase().includes(f.toLowerCase())))`. -/
def hasFluff (w : WorkItem) : Bool :=
  w.freeformTags.any (fun t => fluffTagList.any (fun f => jsIncludes (lowerStr t) (lowerStr f)))

def hasAngst (w : WorkItem) : Bool :=
  w.freeformTags.any (fun t => angstTagList.any (fun a => jsIncludes (lowerStr t) (lowerStr a)))

def fluffCountOf (works : List WorkItem) : Nat := works.countP hasFluff

def angstCountOf (works : List WorkItem) : Nat := works.countP hasAngst

structure MoodStats where
  fluff : Nat
  angst : Nat
  fluffPercent : Nat
  angstPercent : Nat
  preference : String
deriving DecidableEq

/-- moodStats of the evolved analyzer: the percentages are normalised over
the mood-tagged subset (`moodTotal = fluffCount + angstCount`), with
`angstPercent = 100 - fluffPercent` to make them add to 100.
(`100 - fluffPercent` is Nat subtraction here; `fluffPercent ≤ 100` always
holds, see `jsRoundPct_le_100`, so it agrees with JS arithmetic.) -/
def mkMoodStats (works : List WorkItem) : MoodStats :=
  let fluffCount := fluffCountOf works
  let angstCount := angstCountOf works
  let moodTotal := fluffCount + angstCount
  let fluffPercent := if 0 < moodTotal then jsRoundPct fluffCount moodTotal else 0
  let angstPercent := if 0 < moodTotal then 100 - fluffPercent else 0
  { fluff := fluffCount
    angst := angstCount
    fluffPercent := fluffPercent
    angstPercent := angstPercent
    preference :=
      if angstCount < fluffCount then "Fluff"
      else if fluffCount < angstCount then "Angst"
      else "Balanced" }

def ratingOrder : List String :=
  ["Explicit", "Mature", "Teen And Up Audiences", "General Audiences", "Not Rated"]

structure RatingEntry where
  rating : String
  shortName : String
  count : Nat
  percent : Nat
deriving DecidableEq

/-- The rating each work contributes to the breakdown: `w.rating || 'Unknown'`. -/
def jsRatingOf (w : WorkItem) : String := jsStrOr w.rating "Unknown"

/-- ratingBreakdown: one entry per rating of `ratingOrder` (note: the
`Unknown` rating is counted into the underlying Map but has no entry). -/
def mkRatingBreakdown (works : List WorkItem) : List RatingEntry :=
  let totalWorks := works.length
  let ratingCounts := countOccurrences (works.map jsRatingOf)
  ratingOrder.map (fun r =>
    let count := mapGetNat ratingCounts r
    { rating := r
      shortName :=
        if r = "Teen And Up Audiences" then "Teen"
        else if r = "General Audiences" then "General"
        else if r = "Not Rated" then "Unrated"
        else r
      count := count
      percent := if 0 < totalWorks then jsRoundPct count totalWorks else 0 })

structure LengthEntry where
  label : String
  count : Nat
  percent : Nat
deriving DecidableEq

/-- lengthDistribution: six word-count buckets, each with its count and
`Math.round((count / totalWorks) * 100)`. -/
def mkLengthDistribution (works : List WorkItem) : List LengthEntry :=
  let totalWorks := works.length
  let wc : WorkItem → Nat := fun w => jsOr0 w.wordCount
  let entry : String → Nat → LengthEntry := fun label count =>
    { label := label, count := count, percent := jsRoundPct count totalWorks }
  [ entry "Drabbles (<1K)" (works.countP (fun w => wc w < 1000)),
    entry "Short (1K-5K)" (works.countP (fun w => 1000 ≤ wc w ∧ wc w < 5000)),
    entry "Medium (5K-20K)" (works.countP (fun w => 5000 ≤ wc w ∧ wc w < 20000)),
    entry "Long (20K-50K)" (works.countP (fun w => 20000 ≤ wc w ∧ wc w < 50000)),
    entry "Epic (50K-100K)" (works.countP (fun w => 50000 ≤ wc w ∧ wc w < 100000)),
    entry "Novel+ (100K+)" (works.countP (fun w => 100000 ≤ wc w)) ]

def shipCountsOf (works : List WorkItem) : List (String × Nat) :=
  countOccurrences (works.flatMap (fun w => w.relationships))

def topShipsOf (works : List WorkItem) : List (String × Nat) :=
  getTopN (shipCountsOf works) 10

/-- Ships occurring exactly once in the user's collection. -/
def rareShipsOf (works : List WorkItem) : List String :=
  ((shipCountsOf works).filter (fun e => e.2 == 1)).map (fun e => e.1)

/-- rarestPair of the evolved analyzer: the first rare ship, falling back to
`topShips[topShips.length - 1]?.[0] || null` when no ship occurs exactly
once. -/
def rarestPairOf (works : List WorkItem) : Option String :=
  match rareShipsOf works with
  | s :: _ => some s
  | [] => jsStrOrNull (((topShipsOf works).getLast?).map (fun e => e.1))

structure BookmarkPersonality where
  type : String
  message : String
deriving DecidableEq

structure BookmarkStats where
  totalBookmarks : Nat
  totalHistory : Nat
  /-- Source field name: bookmarkRatio (a 0–100 percentage). -/
  bookmarkRatioPct : Nat
  secretFavorite : Option WorkItem
  personality : BookmarkPersonality
deriving DecidableEq

def isBookmarkedWork (w : WorkItem) : Bool :=
  w.source == some "bookmark" || w.isBookmarked

def isHistoryWork (w : WorkItem) : Bool :=
  w.source == some "history" || decide (0 < w.visitCount)

/-- `(w.visitCount || 0) >= 2 && !w.isBookmarked && w.source !== 'bookmark'`. -/
def isRevisitedNotBookmarked (w : WorkItem) : Bool :=
  decide (2 ≤ w.visitCount) && !w.isBookmarked && !(w.source == some "bookmark")

/-- bookmarkStats of the evolved analyzer.  Note it tests `w.source` and
`w.isBookmarked`, not the `isBookmark` flag the scraper actually sets. -/
def mkBookmarkStats (works : List WorkItem) : BookmarkStats :=
  let totalWorks := works.length
  let bookmarkedWorks := works.filter isBookmarkedWork
  let historyWorks := works.filter isHistoryWork
  let ratio := if 0 < totalWorks then jsRoundPct bookmarkedWorks.length totalWorks else 0
  let revisited := works.filter isRevisitedNotBookmarked
  let sortedRevisited :=
    List.insertionSort (fun a b : WorkItem => b.visitCount ≤ a.visitCount) revisited
  { totalBookmarks := bookmarkedWorks.length
    totalHistory := historyWorks.length
    bookmarkRatioPct := ratio
    secretFavorite := sortedRevisited.head?
    personality :=
      if 75 < ratio then
        ⟨"librarian", "You\x27re a librarian at heart — organized, intentional, and you know what deserves a spot."⟩
      else if 40 < ratio then
        ⟨"balanced", "A healthy mix of bookmarking and casual reading. You know quality when you see it."⟩
      else if 10 < ratio then
        ⟨"chaos", "You\x27re a serial re-reader who refuses commitment. We respect the chaos."⟩
      else if bookmarkedWorks.length = 0 then
        ⟨"dangerous", "You live dangerously. Your memory is your bookmarks."⟩
      else
        ⟨"dragon", "Every good fic is a treasure and you hoard like a dragon."⟩ }

/-- The slice of the statistics object the claims are about (see the module
header for the omitted, independent fields). -/
structure StatsObject where
  totalWorks : Nat
  totalWords : Nat
  topShips : List (String × Nat)
  ratingBreakdown : List RatingEntry
  moodStats : MoodStats
  lengthDistribution : List LengthEntry
  rarestPairs : List String
  rarestPair : Option String
  bookmarkStats : BookmarkStats
deriving DecidableEq

/-- The non-empty branch of `analyze`. -/
def analyzeStats (works : List WorkItem) : StatsObject :=
  { totalWorks := works.length
    totalWords := (works.map (fun w => jsOr0 w.wordCount)).sum
    topShips := topShipsOf works
    ratingBreakdown := mkRatingBreakdown works
    moodStats := mkMoodStats works
    lengthDistribution := mkLengthDistribution works
    rarestPairs := (rareShipsOf works).take 5
    rarestPair := rarestPairOf works
    bookmarkStats := mkBookmarkStats works }

inductive AnalyzeOut where
  | empty : AnalyzeOut
  | full : StatsObject → AnalyzeOut
deriving DecidableEq

/-- `analyze`: empty input yields the `{isEmpty: true, totalWorks: 0}`
sentinel (no statistics fields), otherwise the statistics object. -/
def analyze (works : List WorkItem) : AnalyzeOut :=
  if works.isEmpty then .empty else .full (analyzeStats works)

/-! ## Filter stage -/

structure FilterSettings where
  wordCountMin : Nat
  wordCountMax : Nat
  ratings : List String
deriving DecidableEq

/-- `applyFilters` (identical in both app evolutions): keep a work iff its
word count (absent → 0) is inside the inclusive range and its rating
(absent → "Unknown") is among the selected ratings. -/
def applyFilters (works : List WorkItem) (filters : FilterSettings) : List WorkItem :=
  works.filter (fun work =>
    let wordCount := jsOr0 work.wordCount
    if wordCount < filters.wordCountMin || filters.wordCountMax < wordCount then false
    else if !(filters.ratings.contains (jsStrOr work.rating "Unknown")) then false
    else true)

/-! ## Harvester: mergeItems -/

/-- `seen.set(item.workId, item)` on a JS Map modelled as an
insertion-ordered association list keyed by `workId`. -/
def jsMapSet (m : List WorkItem) (it : WorkItem) : List WorkItem :=
  if m.any (fun e => e.workId == it.workId) then
    m.map (fun e => if e.workId == it.workId then it else e)
  else
    m ++ [it]

/-- One bookmark-phase step of `mergeItems`: an id already seen only gets
its bookmark flag set, a new id is inserted. -/
def mergeBookmarkStep (m : List WorkItem) (it : WorkItem) : List WorkItem :=
  if m.any (fun e => e.workId == it.workId) then
    m.map (fun e => if e.workId == it.workId then { e with isBookmark := true } else e)
  else
    m ++ [it]

/-- `mergeItems(historyItems, bookmarkItems)`: seed the keyed collection
from history rows, then fold the bookmark rows in; return the values in
insertion order. -/
def mergeItems (historyItems bookmarkItems : List WorkItem) : List WorkItem :=
  bookmarkItems.foldl mergeBookmarkStep (historyItems.foldl jsMapSet [])

/-! ## Harvester: event-trace model of scrapeAll

The orchestration of scraper.js is embedded as a pure function from an
oracle environment to an event trace plus a result.  The environment
abstracts the injected collaborators: the HTML-fetch capability combined
with the page parsers (a fetched-and-parsed page-count document, listing
pages, detail pages — `none` models a fetch with `success: false`, which
the source turns into a thrown error at listing granularity and a caught,
counted error at detail granularity), and the `isWithinLastYear` date test
(an opaque wall-clock comparison).  The cooperative cancellation flag is
modelled by `cancelAt`: `some k` means the flag becomes set as soon as `k`
fetches have completed (a flag set between two fetches is observed by the
first subsequent check, which is exactly the source's granularity; the
`resetCancel()` calls at run start are reflected in `cancelAt` being
counted from the start of the run).  The trace records each outbound fetch,
each rate-limit wait, each cancellation check (tagged with the number of
fetches completed so far), and each progress emission (phase and percent;
the message / detail strings carry no logic and are omitted). -/

inductive Ev where
  | fetch : Ev
  | wait : Nat → Ev
  | check : Nat → Ev
  | progress : String → ℚ → Ev
deriving DecidableEq

inductive ScrapeErr where
  | cancelled : ScrapeErr
  | fetchFailed : ScrapeErr
deriving DecidableEq

/-- The outcome of one stage of the run: its emitted trace, the total
number of fetches completed when it finished, and its value or thrown
error. -/
structure StageOut (α : Type) where
  trace : List Ev
  fetches : Nat
  out : Except ScrapeErr α

inductive ScrapeSource where
  | history : ScrapeSource
  | bookmarks : ScrapeSource
  | both : ScrapeSource
deriving DecidableEq

inductive TimeRange where
  | all : TimeRange
  | year : TimeRange
  | pages : TimeRange
deriving DecidableEq

structure ScrapeOptions where
  source : ScrapeSource
  timeRange : TimeRange
  pageLimit : Nat
deriving DecidableEq

structure ScrapeEnv where
  /-- Parsed pagination bound of the history listing (`none` = the
  page-count fetch failed). `getPageCount` returns at least 1, which the
  embedding enforces with `Nat.max 1`. -/
  historyPages : Option Nat
  bookmarkPages : Option Nat
  /-- Fetch + parse of one history listing page. -/
  historyPage : Nat → Option (List WorkItem)
  bookmarkPage : Nat → Option (List WorkItem)
  /-- Fetch + parse of one work's detail page (`fetchWorkMetadata`). -/
  detail : String → Option WorkMeta
  /-- `isWithinLastYear` on a non-empty date string (parse + wall-clock
  comparison; an unparseable date yields `true` in the source, which is a
  possible behaviour of this oracle). -/
  withinYear : String → Bool

def RATE_LIMIT_MS : Nat := 5000

/-- Is the cancellation flag visible after `fetches` completed fetches? -/
def cancelSet (cancelAt : Option Nat) (fetches : Nat) : Bool :=
  match cancelAt with
  | none => false
  | some k => decide (k ≤ fetches)

/-- `isWithinLastYear(item.lastVisited)`: a missing (or empty, hence falsy)
date is kept. -/
def keepYear (env : ScrapeEnv) (it : WorkItem) : Bool :=
  match it.lastVisited with
  | none => true
  | some s => if s = "" then true else env.withinYear s

/-- The `timeRange === 'year'` post-filter applied by both listing scrapers. -/
def yearFilter (env : ScrapeEnv) (opts : ScrapeOptions) (items : List WorkItem) : List WorkItem :=
  if opts.timeRange = TimeRange.year then items.filter (keepYear env) else items

/-- `if (timeRange === 'pages' && pageLimit > 0) totalPages = min(totalPages, pageLimit)`. -/
def clampPages (opts : ScrapeOptions) (tp0 : Nat) : Nat :=
  if opts.timeRange = TimeRange.pages ∧ 0 < opts.pageLimit then min tp0 opts.pageLimit else tp0

/-- Progress percent of history listing page `page`:
`5 + (page / totalPages) * 25`. -/
def historyPercent (totalPages page : Nat) : ℚ :=
  5 + ((page : ℚ) / (totalPages : ℚ)) * 25

/-- Progress percent of bookmark listing page `page`:
`progressOffset + (page / totalPages) * 12`. -/
def bookmarksPercent (offset : ℚ) (totalPages page : Nat) : ℚ :=
  offset + ((page : ℚ) / (totalPages : ℚ)) * 12

/-- The per-page loop shared by `scrapeReadingHistory` and
`scrapeBookmarks`: for each page — cancellation check, progress emission,
fetch (a failed listing fetch throws), and a rate-limit wait between pages
(none after the last). `remaining` is the number of pages still to fetch
(page `page` included), so the source's `page < totalPages` is
`0 < remaining` after this page. -/
def pagesLoop (fetchPage : Nat → Option (List WorkItem)) (phase : String)
    (mkPercent : Nat → ℚ) (cancelAt : Option Nat) :
    Nat → Nat → Nat → List WorkItem → StageOut (List WorkItem)
  | 0, _page, fetches, acc => ⟨[], fetches, .ok acc⟩
  | remaining + 1, page, fetches, acc =>
    if cancelSet cancelAt fetches then
      ⟨[.check fetches], fetches, .error .cancelled⟩
    else
      match fetchPage page with
      | none =>
        ⟨[.check fetches, .progress phase (mkPercent page), .fetch], fetches + 1,
         .error .fetchFailed⟩
      | some items =>
        let rest := pagesLoop fetchPage phase mkPercent cancelAt
          remaining (page + 1) (fetches + 1) (acc ++ items)
        ⟨.check fetches :: .progress phase (mkPercent page) :: .fetch ::
           ((if 0 < remaining then [Ev.wait RATE_LIMIT_MS] else []) ++ rest.trace),
         rest.fetches, rest.out⟩

/-- `scrapeReadingHistory`: the init progress event, the page-count fetch
(no rate-limit wait separates it from the first listing-page fetch), the
"found N pages" progress event (percent 5), the per-page loop, and the
`year` post-filter on success. -/
def scrapeReadingHistoryRun (env : ScrapeEnv) (cancelAt : Option Nat)
    (opts : ScrapeOptions) (fetches : Nat) : StageOut (List WorkItem) :=
  match env.historyPages with
  | none => ⟨[.progress "init" 0, .fetch], fetches + 1, .error .fetchFailed⟩
  | some n =>
    let totalPages := clampPages opts (n.max 1)
    let r := pagesLoop env.historyPage "history" (historyPercent totalPages) cancelAt
      totalPages 1 (fetches + 1) []
    ⟨.progress "init" 0 :: .fetch :: .progress "history" 5 :: r.trace,
     r.fetches, r.out.map (yearFilter env opts)⟩

/-- `scrapeBookmarks`: the page-count fetch, the "found N pages" progress
event (percent `offset + 2`), the per-page loop, and the `year`
post-filter on success. -/
def scrapeBookmarksRun (env : ScrapeEnv) (cancelAt : Option Nat) (opts : ScrapeOptions)
    (offset : ℚ) (fetches : Nat) : StageOut (List WorkItem) :=
  match env.bookmarkPages with
  | none => ⟨[.fetch], fetches + 1, .error .fetchFailed⟩
  | some n =>
    let totalPages := clampPages opts (n.max 1)
    let r := pagesLoop env.bookmarkPage "bookmarks" (bookmarksPercent offset totalPages) cancelAt
      totalPages 1 (fetches + 1) []
    ⟨.fetch :: .progress "bookmarks" (offset + 2) :: r.trace,
     r.fetches, r.out.map (yearFilter env opts)⟩

/-- The per-item loop of `enrichWithMetadata`: cancellation check, progress
emission (`30 + (completed / total) * 60`), detail fetch — a failure is
caught, counted, and leaves the item with its listing fields only — and a
rate-limit wait between items (`completed < total` after the increment). -/
def enrichLoop (detail : String → Option WorkMeta) (cancelAt : Option Nat) (total : Nat) :
    List WorkItem → Nat → Nat → Nat → List WorkItem → StageOut (List WorkItem × Nat)
  | [], _completed, failedCount, fetches, acc => ⟨[], fetches, .ok (acc, failedCount)⟩
  | it :: rest, completed, failedCount, fetches, acc =>
    if cancelSet cancelAt fetches then
      ⟨[.check fetches], fetches, .error .cancelled⟩
    else
      let pct : ℚ := 30 + (((completed : ℚ) / (total : ℚ)) * 60)
      let fetched := detail it.workId
      let newItem := match fetched with
        | some md => assignMeta it md
        | none => it
      let failedCount' := match fetched with
        | some _ => failedCount
        | none => failedCount + 1
      let rest' := enrichLoop detail cancelAt total rest (completed + 1) failedCount'
        (fetches + 1) (acc ++ [newItem])
      ⟨.check fetches :: .progress "metadata" pct :: .fetch ::
         ((if completed + 1 < total then [Ev.wait RATE_LIMIT_MS] else []) ++ rest'.trace),
       rest'.fetches, rest'.out⟩

/-- `enrichWithMetadata(items, onProgress)`. -/
def enrichWithMetadataRun (detail : String → Option WorkMeta) (cancelAt : Option Nat)
    (items : List WorkItem) (fetches : Nat) : StageOut (List WorkItem × Nat) :=
  enrichLoop detail cancelAt items.length items 0 0 fetches []

/-- The resolved value of `scrapeAll`: `{success: true, items, failed}`,
`{success: false, cancelled: true}`, or `{success: false, error}`. -/
inductive ScrapeResult where
  | success : List WorkItem → Nat → ScrapeResult
  | cancelled : ScrapeResult
  | failed : ScrapeResult
deriving DecidableEq

/-- The catch block of `scrapeAll`: an error whose message contains
"cancelled" resolves to the cancelled result, every other thrown error to
the failed result. (The external fetch capability's error strings are
assumed not to contain "cancelled".) -/
def errResult : ScrapeErr → ScrapeResult
  | .cancelled => .cancelled
  | .fetchFailed => .failed

/-- The tail of `scrapeAll` after the listing phase(s): the empty-result
early return, otherwise the metadata kickoff progress event (percent 30),
one rate-limit wait, the enrichment loop, and on completion the percent-95
"complete" progress event and the success result. -/
def afterListing (env : ScrapeEnv) (cancelAt : Option Nat) (allItems : List WorkItem)
    (fetches : Nat) : List Ev × ScrapeResult :=
  if allItems.isEmpty then ([], .success [] 0)
  else
    let r := enrichWithMetadataRun env.detail cancelAt allItems fetches
    match r.out with
    | .error e => (Ev.progress "metadata" 30 :: Ev.wait RATE_LIMIT_MS :: r.trace, errResult e)
    | .ok (items, failedCount) =>
      (Ev.progress "metadata" 30 :: Ev.wait RATE_LIMIT_MS ::
         (r.trace ++ [Ev.progress "complete" 95]),
       .success items failedCount)

/-- `scrapeAll(username, onProgress, options)`: the selected listing
source(s) — with one rate-limit wait between the two sources and the
merge step when both run — followed by the enrichment phase; listing
errors and observed cancellations unwind to the catch block. -/
def scrapeAllRun (env : ScrapeEnv) (cancelAt : Option Nat) (opts : ScrapeOptions) :
    List Ev × ScrapeResult :=
  match opts.source with
  | .history =>
    let rH := scrapeReadingHistoryRun env cancelAt opts 0
    match rH.out with
    | .error e => (rH.trace, errResult e)
    | .ok itemsH =>
      let t := afterListing env cancelAt itemsH rH.fetches
      (rH.trace ++ t.1, t.2)
  | .bookmarks =>
    let rB := scrapeBookmarksRun env cancelAt opts 0 0
    match rB.out with
    | .error e => (rB.trace, errResult e)
    | .ok itemsB =>
      let t := afterListing env cancelAt itemsB rB.fetches
      (rB.trace ++ t.1, t.2)
  | .both =>
    let rH := scrapeReadingHistoryRun env cancelAt opts 0
    match rH.out with
    | .error e => (rH.trace, errResult e)
    | .ok itemsH =>
      let rB := scrapeBookmarksRun env cancelAt opts 30 rH.fetches
      match rB.out with
      | .error e => (rH.trace ++ Ev.wait RATE_LIMIT_MS :: rB.trace, errResult e)
      | .ok itemsB =>
        let allItems := mergeItems itemsH itemsB
        let t := afterListing env cancelAt allItems rB.fetches
        (rH.trace ++ Ev.wait RATE_LIMIT_MS :: rB.trace ++ t.1, t.2)

/-! ## Trace observations -/

/-- Accumulates, for every two consecutive fetch events of a trace, the
total wait time inserted between them. -/
def interFetchGapsAux : List Ev → Option Nat → List Nat
  | [], _ => []
  | Ev.fetch :: rest, none => interFetchGapsAux rest (some 0)
  | Ev.fetch :: rest, some g => g :: interFetchGapsAux rest (some 0)
  | Ev.wait ms :: rest, some g => interFetchGapsAux rest (some (g + ms))
  | _ :: rest, s => interFetchGapsAux rest s

/-- The measured wait between each pair of consecutive fetches of a run. -/
def interFetchGaps (tr : List Ev) : List Nat :=
  interFetchGapsAux tr none

/-- The percents of the progress events whose phase is in `phases`, in
emission order. -/
def phasePercents (phases : List String) (tr : List Ev) : List ℚ :=
  tr.filterMap (fun e => match e with
    | Ev.progress p q => if phases.contains p then some q else none
    | _ => none)

/-- The percents of all progress events of a trace, in emission order. -/
def allPercents (tr : List Ev) : List ℚ :=
  tr.filterMap (fun e => match e with
    | Ev.progress _ q => some q
    | _ => none)

/-- How many progress events of phase `phase` a trace contains. -/
def countPhase (phase : String) (tr : List Ev) : Nat :=
  tr.countP (fun e => match e with
    | Ev.progress p _ => p == phase
    | _ => false)

/-! ## Concrete fixtures used by witnesses and counterexamples -/

/-- A minimal listing-derived record (all optional metadata absent), as
`parseHistoryItem` would build it. -/
def testItem (wid : String) (vc : Nat) : WorkItem :=
  { workId := wid, title := "T", authors := [], fandoms := [], visitCount := vc,
    lastVisited := none, warnings := [], relationships := [], characters := [],
    freeformTags := [], wordCount := none, rating := none, kudos := none,
    bookmarks := none, hits := none, chapters := none, complete := none,
    datePublished := none, dateUpdated := none, isBookmark := false,
    source := none, isBookmarked := false }

def metaA : WorkMeta :=
  { workId := "11", rating := "Explicit", warnings := [], fandoms := [],
    relationships := [], characters := [], freeformTags := [],
    wordCount := some 1000, chapters := some "1/1", kudos := some 5,
    bookmarks := some 1, hits := some 10, datePublished := some "1 Jan 2024",
    dateUpdated := some "1 Jan 2024", complete := some true }

def itemA : WorkItem := testItem "11" 1

/-- One history page holding one item, with every fetch succeeding. -/
def envDetail : ScrapeEnv :=
  { historyPages := some 1, bookmarkPages := some 1,
    historyPage := fun _ => some [itemA], bookmarkPage := fun _ => some [],
    detail := fun _ => some metaA, withinYear := fun _ => true }

/-- One empty history page, with every fetch succeeding. -/
def envEmptyPage : ScrapeEnv :=
  { historyPages := some 1, bookmarkPages := some 1,
    historyPage := fun _ => some [], bookmarkPage := fun _ => some [],
    detail := fun _ => none, withinYear := fun _ => true }

def optsHistoryAll : ScrapeOptions :=
  { source := .history, timeRange := .all, pageLimit := 0 }

def optsBothAll : ScrapeOptions :=
  { source := .both, timeRange := .all, pageLimit := 0 }

def isFetchEv : Ev → Bool
  | Ev.fetch => true
  | _ => false

/-! ## C2 — rate floor between consecutive fetches -/

/-- C2: the rate floor is violated by the code: in a history-only run with
a single listing page, the page-count fetch and the page-1 fetch are issued
back to back — the one inter-fetch gap of the run is 0 ms, not ≥ 5000 ms.
(`scrapeReadingHistory` only waits between loop iterations; no wait
separates `getHistoryPageCount` from the first `scrapeHistoryPage`.) -/
theorem rateFloor_violated_after_pageCount :
    interFetchGaps (scrapeAllRun envEmptyPage none optsHistoryAll).1 = [0] := by
  decide

/-! ## C3 — per-item best-effort enrichment -/

/-- Closed form of the enrichment loop when cancellation never fires:
the accumulated output is the input mapped through the per-item
merge-or-keep step, and the failure counter advances by exactly the number
of items whose detail fetch fails. -/
theorem enrichLoop_none_ok (detail : String → Option WorkMeta) (total : Nat)
    (items : List WorkItem) : ∀ (completed failedCount fetches : Nat) (acc : List WorkItem),
    (enrichLoop detail none total items completed failedCount fetches acc).out =
      .ok (acc ++ items.map (fun it =>
            match detail it.workId with
            | some md => assignMeta it md
            | none => it),
        failedCount + items.countP (fun it => (detail it.workId).isNone)) := by
  induction items with
  | nil => intro completed failedCount fetches acc; simp [enrichLoop]
  | cons it rest ih =>
    intro completed failedCount fetches acc
    simp only [enrichLoop, cancelSet, Bool.false_eq_true, if_false]
    cases h : detail it.workId with
    | none =>
      simp only [h, ih, List.countP_cons, h, Option.isNone_none, if_true,
        List.map_cons, List.append_assoc, List.singleton_append]
      simp [h]
      omega
    | some md =>
      simp only [h, ih, List.countP_cons, Option.isNone_some,
        List.map_cons, List.append_assoc, List.singleton_append]
      simp [h]

/-- C3: for every input collection and every detail-fetch behaviour, the
enrichment pass completes with an `ok` value (a per-item failure never
aborts the batch and nothing is thrown); the failure count equals the
number of records whose detail fetch fails; each failing record is returned
unchanged (listing-derived fields only) in its original position; and each
succeeding record is returned fully enriched (`Object.assign` of the
fetched metadata). -/
theorem enrichWithMetadata_best_effort (detail : String → Option WorkMeta)
    (items : List WorkItem) (fetches : Nat) :
    (enrichWithMetadataRun detail none items fetches).out =
      .ok (items.map (fun it =>
            match detail it.workId with
            | some md => assignMeta it md
            | none => it),
        (items.filter (fun it => (detail it.workId).isNone)).length) := by
  rw [enrichWithMetadataRun, enrichLoop_none_ok]
  rw [← List.countP_eq_length_filter]
  simp

/-! ## C6 — filter stage -/

/-- C6: the filter stage keeps exactly the records whose word count
(absent treated as 0) lies in the inclusive range and whose rating (absent
treated as "Unknown") is among the allowed ratings, and applying the same
filter twice equals applying it once.  (The embedding is a pure function:
the source's `Array.prototype.filter` builds a new array and writes no
record, so input records are not mutated.) -/
theorem applyFilters_spec (works : List WorkItem) (filters : FilterSettings) :
    (∀ w, w ∈ applyFilters works filters ↔
      (w ∈ works ∧ filters.wordCountMin ≤ jsOr0 w.wordCount ∧
        jsOr0 w.wordCount ≤ filters.wordCountMax ∧
        (jsStrOr w.rating "Unknown") ∈ filters.ratings))
    ∧ applyFilters (applyFilters works filters) filters = applyFilters works filters := by
  constructor
  · intro w
    simp only [applyFilters, List.mem_filter]
    constructor
    · rintro ⟨hw, hp⟩
      refine ⟨hw, ?_⟩
      by_cases h1 : jsOr0 w.wordCount < filters.wordCountMin <;>
        by_cases h2 : filters.wordCountMax < jsOr0 w.wordCount <;>
        by_cases h3 : (jsStrOr w.rating "Unknown") ∈ filters.ratings <;>
        simp [h1, h2, h3, List.elem_iff] at hp <;>
        first
        | exact ⟨by omega, by omega, h3⟩
        | skip
    · rintro ⟨hw, hmin, hmax, hrat⟩
      refine ⟨hw, ?_⟩
      simp [List.elem_iff, hrat]
      omega
  · simp only [applyFilters, List.filter_filter]
    exact List.filter_congr (fun a _ => Bool.and_self _)

/-! ## C7 — mood statistics -/

theorem jsRoundPct_le_100 (c T : Nat) (hT : 0 < T) (hc : c ≤ T) : jsRoundPct c T ≤ 100 := by
  unfold jsRoundPct
  have h2T : 0 < 2 * T := by omega
  have hlt : 200 * c + T < 101 * (2 * T) := by omega
  have := (Nat.div_lt_iff_lt_mul h2T).mpr hlt
  omega

/-- C7: on a non-empty collection with at least one mood-tagged work, the
mood percentages are computed over the mood-tagged subset only
(`fluffPercent` is the rounded share of fluff works among
`fluffCount + angstCount`, not among all works), they add to exactly 100,
and the preference is "Fluff" / "Angst" / "Balanced" accordingly as the
fluff count is higher / lower / equal. -/
theorem preference_ite_iff (f a : Nat) :
    ((if a < f then "Fluff" else if f < a then "Angst" else "Balanced") = "Fluff" ↔ a < f)
    ∧ ((if a < f then "Fluff" else if f < a then "Angst" else "Balanced") = "Angst" ↔ f < a)
    ∧ ((if a < f then "Fluff" else if f < a then "Angst" else "Balanced") = "Balanced" ↔ f = a) := by
  by_cases h1 : a < f <;> by_cases h2 : f < a <;> simp [h1, h2] <;> omega

theorem moodStats_spec (works : List WorkItem) (hne : works ≠ [])
    (hmood : 0 < fluffCountOf works + angstCountOf works) :
    ((analyzeStats works).moodStats.fluffPercent + (analyzeStats works).moodStats.angstPercent = 100)
    ∧ (analyzeStats works).moodStats.fluffPercent
        = jsRoundPct (fluffCountOf works) (fluffCountOf works + angstCountOf works)
    ∧ ((analyzeStats works).moodStats.preference = "Fluff"
        ↔ angstCountOf works < fluffCountOf works)
    ∧ ((analyzeStats works).moodStats.preference = "Angst"
        ↔ fluffCountOf works < angstCountOf works)
    ∧ ((analyzeStats works).moodStats.preference = "Balanced"
        ↔ fluffCountOf works = angstCountOf works) := by
  have hle : jsRoundPct (fluffCountOf works) (fluffCountOf works + angstCountOf works) ≤ 100 :=
    jsRoundPct_le_100 _ _ hmood (Nat.le_add_right _ _)
  have hms : (analyzeStats works).moodStats = mkMoodStats works := rfl
  have hfp : (mkMoodStats works).fluffPercent
      = jsRoundPct (fluffCountOf works) (fluffCountOf works + angstCountOf works) := by
    simp only [mkMoodStats, hmood, if_true]
  have hap : (mkMoodStats works).angstPercent
      = 100 - jsRoundPct (fluffCountOf works) (fluffCountOf works + angstCountOf works) := by
    simp only [mkMoodStats, hmood, if_true]
  have hpr : (mkMoodStats works).preference
      = (if angstCountOf works < fluffCountOf works then "Fluff"
         else if fluffCountOf works < angstCountOf works then "Angst" else "Balanced") := rfl
  rw [hms, hfp, hap, hpr]
  exact ⟨by omega, rfl, (preference_ite_iff _ _).1, (preference_ite_iff _ _).2.1,
    (preference_ite_iff _ _).2.2⟩

def moodW1 : WorkItem := { testItem "1" 1 with freeformTags := ["Tooth-Rotting Fluff"] }
def moodW2 : WorkItem := { testItem "2" 1 with freeformTags := ["angst and hurt/comfort feels"] }
def moodW3 : WorkItem := { testItem "3" 1 with freeformTags := ["Slow Burn"] }
def moodWitnessWorks : List WorkItem := [moodW1, moodW2, moodW3]

theorem moodStats_spec_witness :
    moodWitnessWorks ≠ [] ∧
    0 < fluffCountOf moodWitnessWorks + angstCountOf moodWitnessWorks ∧
    (((analyzeStats moodWitnessWorks).moodStats.fluffPercent
        + (analyzeStats moodWitnessWorks).moodStats.angstPercent = 100)
      ∧ (analyzeStats moodWitnessWorks).moodStats.fluffPercent
          = jsRoundPct (fluffCountOf moodWitnessWorks)
              (fluffCountOf moodWitnessWorks + angstCountOf moodWitnessWorks)
      ∧ ((analyzeStats moodWitnessWorks).moodStats.preference = "Fluff"
          ↔ angstCountOf moodWitnessWorks < fluffCountOf moodWitnessWorks)
      ∧ ((analyzeStats moodWitnessWorks).moodStats.preference = "Angst"
          ↔ fluffCountOf moodWitnessWorks < angstCountOf moodWitnessWorks)
      ∧ ((analyzeStats moodWitnessWorks).moodStats.preference = "Balanced"
          ↔ fluffCountOf moodWitnessWorks = angstCountOf moodWitnessWorks)) :=
  ⟨by decide, by decide, moodStats_spec moodWitnessWorks (by decide) (by decide)⟩

/-! ## C4 — cancellation: counterexample part -/

/-- C4 counterexample: the claim fails as stated.  In this history-only run
the trace contains exactly 3 fetches; with `cancelAt = some 3` the
cancellation flag becomes set the moment the third (and last) fetch
completes — strictly before the run resolves — yet no cancellation check
remains to observe it, and the run resolves to a success result, not to
the cancelled result. -/
theorem scrapeAll_cancelled_late_not_observed :
    (scrapeAllRun envDetail (some 3) optsHistoryAll).1.countP isFetchEv = 3 ∧
    (scrapeAllRun envDetail (some 3) optsHistoryAll).2
      = ScrapeResult.success [assignMeta itemA metaA] 0 ∧
    (scrapeAllRun envDetail (some 3) optsHistoryAll).2 ≠ ScrapeResult.cancelled := by
  refine ⟨by decide, by decide, by decide⟩

/-! ## C8 — progress monotonicity: counterexample part -/

/-- C8 counterexample: in a both-sources run (one history page with one
work, one empty bookmark page, all fetches succeeding), the emitted
percents are 0, 5, 30, 32, 42, 30, 30, 95 — the metadata phase restarts at
30 after the bookmarks phase ended at 42, so the sequence is not
monotonically non-decreasing. -/
theorem progress_percent_not_monotone :
    allPercents (scrapeAllRun envDetail none optsBothAll).1
      = [0, 5, 30, 32, 42, 30, 30, 95] ∧
    ¬ List.Chain' (· ≤ ·) (allPercents (scrapeAllRun envDetail none optsBothAll).1) := by
  have h : allPercents (scrapeAllRun envDetail none optsBothAll).1
      = [0, 5, 30, 32, 42, 30, 30, 95] := by
    norm_num [scrapeAllRun, scrapeReadingHistoryRun, scrapeBookmarksRun, pagesLoop,
      enrichLoop, enrichWithMetadataRun, afterListing, mergeItems, mergeBookmarkStep,
      jsMapSet, envDetail, optsBothAll, cancelSet, clampPages, yearFilter, keepYear,
      Except.map, allPercents, historyPercent, bookmarksPercent, RATE_LIMIT_MS, itemA,
      testItem, metaA, assignMeta, List.filterMap]
  refine ⟨h, ?_⟩
  rw [h]
  intro hch
  have h42 : (42:ℚ) ≤ 30 := by
    have := hch
    simp only [List.chain'_cons] at this
    exact this.2.2.2.2.1
  norm_num at h42

/-! ## C5 — percentage sums: counterexample part -/

/-- Eight records whose word counts put one record in each of the first
five length buckets and three in the last. -/
def lenW (wid : String) (wc : Nat) : WorkItem := { testItem wid 1 with wordCount := some wc }

def wsPercent : List WorkItem :=
  [lenW "1" 500, lenW "2" 1000, lenW "3" 5000, lenW "4" 20000,
   lenW "5" 50000, lenW "6" 100000, lenW "7" 100001, lenW "8" 100002]

/-- C5 counterexample: on `wsPercent` (a non-empty collection) the
length-distribution percents are 13, 13, 13, 13, 13, 38 — `Math.round` of
12.5 five times and of 37.5 once — summing to 103, outside 100 ± 1; and
because every record's rating is "Unknown" (a value the breakdown does not
display), the rating-breakdown percents sum to 0, also outside 100 ± 1. -/
theorem percent_sums_counterexample :
    analyze wsPercent = AnalyzeOut.full (analyzeStats wsPercent) ∧
    ((analyzeStats wsPercent).lengthDistribution.map (fun e => e.percent)).sum = 103 ∧
    ((analyzeStats wsPercent).ratingBreakdown.map (fun e => e.percent)).sum = 0 := by
  refine ⟨by decide, by decide, by decide⟩

/-! ## C5 — percentage sums: amended bounds -/

/-- Division bounds for the embedded `Math.round((100*c)/T)`. -/
theorem jsRoundPct_bounds (c T : Nat) (hT : 0 < T) :
    2 * T * jsRoundPct c T ≤ 200 * c + T ∧
    200 * c + T < 2 * T * jsRoundPct c T + 2 * T := by
  unfold jsRoundPct
  constructor
  · calc 2 * T * ((200 * c + T) / (2 * T))
        = ((200 * c + T) / (2 * T)) * (2 * T) := Nat.mul_comm _ _
      _ ≤ 200 * c + T := Nat.div_mul_le_self _ _
  · have hmod := Nat.div_add_mod (200 * c + T) (2 * T)
    have hlt : (200 * c + T) % (2 * T) < 2 * T := Nat.mod_lt _ (by omega)
    calc 200 * c + T
        = 2 * T * ((200 * c + T) / (2 * T)) + (200 * c + T) % (2 * T) := hmod.symm
      _ < 2 * T * ((200 * c + T) / (2 * T)) + 2 * T := Nat.add_lt_add_left hlt _

/-- `find?` by key commutes with a key-preserving map. -/
theorem find?_key_map {α : Type} (keyf : α → String) (g : α → α)
    (hg : ∀ e, keyf (g e) = keyf e) (k : String) :
    ∀ m : List α, List.find? (fun e => keyf e == k) (m.map g)
      = (List.find? (fun e => keyf e == k) m).map g := by
  intro m
  induction m with
  | nil => rfl
  | cons e m ih =>
    simp only [List.map_cons, List.find?_cons, hg]
    cases hc : (keyf e == k) with
    | false => simp [hc, ih]
    | true => simp [hc]

/-- One `bumpCount` step changes exactly the looked-up key's count. -/
theorem mapGetNat_bumpCount (m : List (String × Nat)) (key k : String) :
    mapGetNat (bumpCount m key) k = mapGetNat m k + (if key = k then 1 else 0) := by
  unfold bumpCount
  by_cases hany : (m.any (fun e => e.1 == key)) = true
  · rw [if_pos hany]
    have hgm := find?_key_map (fun e : String × Nat => e.1)
      (fun e => if (e.1 == key) = true then (e.1, e.2 + 1) else e)
      (fun e => by by_cases h : (e.1 == key) = true <;> simp [h]) k m
    unfold mapGetNat
    rw [hgm]
    cases hf : List.find? (fun e : String × Nat => e.1 == k) m with
    | none =>
      by_cases hkk : key = k
      · subst hkk
        rw [List.any_eq_true] at hany
        obtain ⟨e, hem, he⟩ := hany
        rw [List.find?_eq_none] at hf
        exact absurd he (hf e hem)
      · simp [hkk]
    | some e =>
      have hekk := List.find?_some hf
      simp only [beq_iff_eq] at hekk
      by_cases hkk : key = k
      · subst hkk
        simp [hekk]
      · have hprop : ¬ e.1 = key := fun h => hkk (h ▸ hekk)
        have hnk : (e.1 == key) = false := beq_eq_false_iff_ne.mpr hprop
        simp [hnk, hkk, hprop]
  · rw [if_neg hany]
    unfold mapGetNat
    rw [List.find?_append]
    by_cases hkk : key = k
    · subst hkk
      have hnone : List.find? (fun e : String × Nat => e.1 == key) m = none := by
        rw [List.find?_eq_none]
        intro x hx hpx
        exact hany (List.any_eq_true.mpr ⟨x, hx, hpx⟩)
      rw [hnone]
      simp [List.find?_cons]
    · have h1 : List.find? (fun e : String × Nat => e.1 == k) [(key, 1)] = none := by
        have hb : (((key, 1) : String × Nat).1 == k) = false := beq_eq_false_iff_ne.mpr hkk
        simp [List.find?_cons, hb]
      rw [h1, Option.or_none]
      simp [hkk]

/-- Looking a key up in `countOccurrences` yields that key's number of
occurrences (for a non-empty key; empty strings are skipped as falsy). -/
theorem mapGetNat_countOccurrences (items : List String) (k : String) (hk : k ≠ "") :
    mapGetNat (countOccurrences items) k = items.count k := by
  suffices h : ∀ m, mapGetNat
      (items.foldl (fun m item => if item = "" then m else bumpCount m item) m) k
      = mapGetNat m k + items.count k by
    have h0 := h []
    have hbase : mapGetNat [] k = 0 := rfl
    rw [countOccurrences, h0, hbase, Nat.zero_add]
  induction items with
  | nil => intro m; simp [mapGetNat]
  | cons it rest ih =>
    intro m
    simp only [List.foldl_cons]
    by_cases hit : it = ""
    · rw [if_pos hit, ih, List.count_cons]
      have hne : (it == k) = false := beq_eq_false_iff_ne.mpr (fun h => hk (h ▸ hit))
      simp [hne]
    · rw [if_neg hit, ih, mapGetNat_bumpCount, List.count_cons]
      by_cases hik : it = k
      · subst hik
        simp
        omega
      · have hne : (it == k) = false := beq_eq_false_iff_ne.mpr hik
        simp [hik, hne]

/-- In a duplicate-free key list containing `x`, exactly one key equals `x`. -/
theorem sum_ite_count_one (x : String) : ∀ ks : List String, ks.Nodup → x ∈ ks →
    (ks.map (fun k => if (x == k) = true then 1 else 0)).sum = 1 := by
  intro ks
  induction ks with
  | nil => intro _ h; cases h
  | cons k ks ih =>
    intro hnd hx
    rw [List.nodup_cons] at hnd
    rcases List.mem_cons.mp hx with h | h
    · subst h
      simp only [List.map_cons, List.sum_cons, beq_self_eq_true, if_true]
      have hz : (ks.map (fun j => if (x == j) = true then 1 else 0)).sum = 0 := by
        apply List.sum_eq_zero
        intro y hy
        simp only [List.mem_map] at hy
        obtain ⟨j, hj, rfl⟩ := hy
        have hxj : x ≠ j := fun hxj => hnd.1 (hxj ▸ hj)
        simp [hxj]
      rw [hz]
    · have hxk : (x == k) = false := beq_eq_false_iff_ne.mpr
        (fun hxk => hnd.1 (hxk ▸ h))
      simp only [List.map_cons, List.sum_cons]
      rw [ih hnd.2 h]
      simp [hxk]

/-- If every element of `l` lies in the duplicate-free key list `ks`, the
per-key occurrence counts over `ks` add up to the length of `l`. -/
theorem sum_counts_of_mem (ks : List String) (hnd : ks.Nodup) :
    ∀ l : List String, (∀ x ∈ l, x ∈ ks) →
      (ks.map (fun k => l.count k)).sum = l.length := by
  intro l
  induction l with
  | nil => intro _; simp
  | cons x rest ih =>
    intro hmem
    have step : (ks.map (fun k => (x :: rest).count k)).sum
        = (ks.map (fun k => rest.count k + if (x == k) = true then 1 else 0)).sum := by
      congr 1
      apply List.map_congr_left
      intro k _
      rw [List.count_cons]
    rw [step, List.sum_map_add, ih (fun y hy => hmem y (List.mem_cons_of_mem _ hy)),
      sum_ite_count_one x ks hnd (hmem x (List.mem_cons_self x rest))]
    simp [Nat.add_comm]

/-- Five rounded percentages of counts that partition a positive total sum
to a value in [98, 102]. -/
theorem pct_sum_bounds5 (c1 c2 c3 c4 c5 T : Nat) (hT : 0 < T)
    (hsum : c1 + c2 + c3 + c4 + c5 = T) :
    98 ≤ jsRoundPct c1 T + (jsRoundPct c2 T + (jsRoundPct c3 T
        + (jsRoundPct c4 T + jsRoundPct c5 T)))
    ∧ jsRoundPct c1 T + (jsRoundPct c2 T + (jsRoundPct c3 T
        + (jsRoundPct c4 T + jsRoundPct c5 T))) ≤ 102 := by
  obtain ⟨l1, u1⟩ := jsRoundPct_bounds c1 T hT
  obtain ⟨l2, u2⟩ := jsRoundPct_bounds c2 T hT
  obtain ⟨l3, u3⟩ := jsRoundPct_bounds c3 T hT
  obtain ⟨l4, u4⟩ := jsRoundPct_bounds c4 T hT
  obtain ⟨l5, u5⟩ := jsRoundPct_bounds c5 T hT
  have hA : T * (2 * (jsRoundPct c1 T + (jsRoundPct c2 T + (jsRoundPct c3 T
      + (jsRoundPct c4 T + jsRoundPct c5 T))))) ≤ T * 205 := by
    calc T * (2 * (jsRoundPct c1 T + (jsRoundPct c2 T + (jsRoundPct c3 T
          + (jsRoundPct c4 T + jsRoundPct c5 T)))))
        = 2 * T * jsRoundPct c1 T + (2 * T * jsRoundPct c2 T + (2 * T * jsRoundPct c3 T
          + (2 * T * jsRoundPct c4 T + 2 * T * jsRoundPct c5 T))) := by ring
      _ ≤ (200 * c1 + T) + ((200 * c2 + T) + ((200 * c3 + T)
          + ((200 * c4 + T) + (200 * c5 + T)))) :=
          Nat.add_le_add l1 (Nat.add_le_add l2 (Nat.add_le_add l3 (Nat.add_le_add l4 l5)))
      _ = 200 * (c1 + c2 + c3 + c4 + c5) + 5 * T := by ring
      _ = T * 205 := by rw [hsum]; ring
  have hB : T * 205 < T * (2 * (jsRoundPct c1 T + (jsRoundPct c2 T + (jsRoundPct c3 T
      + (jsRoundPct c4 T + jsRoundPct c5 T)))) + 10) := by
    calc T * 205
        = 200 * (c1 + c2 + c3 + c4 + c5) + 5 * T := by rw [hsum]; ring
      _ = (200 * c1 + T) + ((200 * c2 + T) + ((200 * c3 + T)
          + ((200 * c4 + T) + (200 * c5 + T)))) := by ring
      _ < (2 * T * jsRoundPct c1 T + 2 * T) + ((2 * T * jsRoundPct c2 T + 2 * T)
          + ((2 * T * jsRoundPct c3 T + 2 * T) + ((2 * T * jsRoundPct c4 T + 2 * T)
          + (2 * T * jsRoundPct c5 T + 2 * T)))) :=
          Nat.add_lt_add u1 (Nat.add_lt_add u2 (Nat.add_lt_add u3 (Nat.add_lt_add u4 u5)))
      _ = T * (2 * (jsRoundPct c1 T + (jsRoundPct c2 T + (jsRoundPct c3 T
          + (jsRoundPct c4 T + jsRoundPct c5 T)))) + 10) := by ring
  have h1 := Nat.le_of_mul_le_mul_left hA hT
  have h2 := Nat.lt_of_mul_lt_mul_left hB
  omega

/-- Six rounded percentages of counts that partition a positive total sum
to a value in [98, 103]. -/
theorem pct_sum_bounds6 (c1 c2 c3 c4 c5 c6 T : Nat) (hT : 0 < T)
    (hsum : c1 + c2 + c3 + c4 + c5 + c6 = T) :
    98 ≤ jsRoundPct c1 T + (jsRoundPct c2 T + (jsRoundPct c3 T
        + (jsRoundPct c4 T + (jsRoundPct c5 T + jsRoundPct c6 T))))
    ∧ jsRoundPct c1 T + (jsRoundPct c2 T + (jsRoundPct c3 T
        + (jsRoundPct c4 T + (jsRoundPct c5 T + jsRoundPct c6 T)))) ≤ 103 := by
  obtain ⟨l1, u1⟩ := jsRoundPct_bounds c1 T hT
  obtain ⟨l2, u2⟩ := jsRoundPct_bounds c2 T hT
  obtain ⟨l3, u3⟩ := jsRoundPct_bounds c3 T hT
  obtain ⟨l4, u4⟩ := jsRoundPct_bounds c4 T hT
  obtain ⟨l5, u5⟩ := jsRoundPct_bounds c5 T hT
  obtain ⟨l6, u6⟩ := jsRoundPct_bounds c6 T hT
  have hA : T * (2 * (jsRoundPct c1 T + (jsRoundPct c2 T + (jsRoundPct c3 T
      + (jsRoundPct c4 T + (jsRoundPct c5 T + jsRoundPct c6 T)))))) ≤ T * 206 := by
    calc T * (2 * (jsRoundPct c1 T + (jsRoundPct c2 T + (jsRoundPct c3 T
          + (jsRoundPct c4 T + (jsRoundPct c5 T + jsRoundPct c6 T))))))
        = 2 * T * jsRoundPct c1 T + (2 * T * jsRoundPct c2 T + (2 * T * jsRoundPct c3 T
          + (2 * T * jsRoundPct c4 T + (2 * T * jsRoundPct c5 T
          + 2 * T * jsRoundPct c6 T)))) := by ring
      _ ≤ (200 * c1 + T) + ((200 * c2 + T) + ((200 * c3 + T)
          + ((200 * c4 + T) + ((200 * c5 + T) + (200 * c6 + T))))) :=
          Nat.add_le_add l1 (Nat.add_le_add l2 (Nat.add_le_add l3 (Nat.add_le_add l4
            (Nat.add_le_add l5 l6))))
      _ = 200 * (c1 + c2 + c3 + c4 + c5 + c6) + 6 * T := by ring
      _ = T * 206 := by rw [hsum]; ring
  have hB : T * 206 < T * (2 * (jsRoundPct c1 T + (jsRoundPct c2 T + (jsRoundPct c3 T
      + (jsRoundPct c4 T + (jsRoundPct c5 T + jsRoundPct c6 T))))) + 12) := by
    calc T * 206
        = 200 * (c1 + c2 + c3 + c4 + c5 + c6) + 6 * T := by rw [hsum]; ring
      _ = (200 * c1 + T) + ((200 * c2 + T) + ((200 * c3 + T)
          + ((200 * c4 + T) + ((200 * c5 + T) + (200 * c6 + T))))) := by ring
      _ < (2 * T * jsRoundPct c1 T + 2 * T) + ((2 * T * jsRoundPct c2 T + 2 * T)
          + ((2 * T * jsRoundPct c3 T + 2 * T) + ((2 * T * jsRoundPct c4 T + 2 * T)
          + ((2 * T * jsRoundPct c5 T + 2 * T) + (2 * T * jsRoundPct c6 T + 2 * T))))) :=
          Nat.add_lt_add u1 (Nat.add_lt_add u2 (Nat.add_lt_add u3 (Nat.add_lt_add u4
            (Nat.add_lt_add u5 u6))))
      _ = T * (2 * (jsRoundPct c1 T + (jsRoundPct c2 T + (jsRoundPct c3 T
          + (jsRoundPct c4 T + (jsRoundPct c5 T + jsRoundPct c6 T))))) + 12) := by ring
  have h1 := Nat.le_of_mul_le_mul_left hA hT
  have h2 := Nat.lt_of_mul_lt_mul_left hB
  omega

/-- The six length buckets partition the collection. -/
theorem lengthBuckets_partition (works : List WorkItem) :
    works.countP (fun w => jsOr0 w.wordCount < 1000)
    + works.countP (fun w => 1000 ≤ jsOr0 w.wordCount ∧ jsOr0 w.wordCount < 5000)
    + works.countP (fun w => 5000 ≤ jsOr0 w.wordCount ∧ jsOr0 w.wordCount < 20000)
    + works.countP (fun w => 20000 ≤ jsOr0 w.wordCount ∧ jsOr0 w.wordCount < 50000)
    + works.countP (fun w => 50000 ≤ jsOr0 w.wordCount ∧ jsOr0 w.wordCount < 100000)
    + works.countP (fun w => 100000 ≤ jsOr0 w.wordCount) = works.length := by
  induction works with
  | nil => rfl
  | cons w rest ih =>
    simp only [List.countP_cons, List.length_cons, decide_eq_true_eq]
    split_ifs <;> omega

/-- C5, amended: on a non-empty collection the length-distribution percents
sum to a value in [98, 103] (six `Math.round`s can deviate by up to 3 from
100, and 103 is attained, see the counterexample); and when every record's
rating is one of the five displayed values, the rating-breakdown percents
sum to a value in [98, 102] (records rated outside the enumeration —
"Unknown" — are counted in no displayed entry, which can push that sum all
the way to 0). -/
theorem percent_sums_amended (works : List WorkItem) (hne : works ≠ []) :
    ((∀ w ∈ works, jsRatingOf w ∈ ratingOrder) →
      98 ≤ ((analyzeStats works).ratingBreakdown.map (fun e => e.percent)).sum ∧
      ((analyzeStats works).ratingBreakdown.map (fun e => e.percent)).sum ≤ 102)
    ∧ (98 ≤ ((analyzeStats works).lengthDistribution.map (fun e => e.percent)).sum ∧
       ((analyzeStats works).lengthDistribution.map (fun e => e.percent)).sum ≤ 103) := by
  have hT : 0 < works.length := List.length_pos.mpr hne
  constructor
  · intro hrat
    have hmem : ∀ x ∈ works.map jsRatingOf, x ∈ ratingOrder := by
      intro x hx
      obtain ⟨w, hw, rfl⟩ := List.mem_map.mp hx
      exact hrat w hw
    have hsum := sum_counts_of_mem ratingOrder (by decide) (works.map jsRatingOf) hmem
    simp only [ratingOrder, List.map_cons, List.map_nil, List.sum_cons, List.sum_nil,
      List.length_map] at hsum
    have hrb : ((analyzeStats works).ratingBreakdown.map (fun e => e.percent)).sum
        = jsRoundPct ((works.map jsRatingOf).count "Explicit") works.length
          + (jsRoundPct ((works.map jsRatingOf).count "Mature") works.length
          + (jsRoundPct ((works.map jsRatingOf).count "Teen And Up Audiences") works.length
          + (jsRoundPct ((works.map jsRatingOf).count "General Audiences") works.length
          + jsRoundPct ((works.map jsRatingOf).count "Not Rated") works.length))) := by
      simp only [analyzeStats, mkRatingBreakdown, ratingOrder, List.map_cons, List.map_nil,
        List.sum_cons, List.sum_nil, hT, if_true,
        mapGetNat_countOccurrences _ "Explicit" (by decide),
        mapGetNat_countOccurrences _ "Mature" (by decide),
        mapGetNat_countOccurrences _ "Teen And Up Audiences" (by decide),
        mapGetNat_countOccurrences _ "General Audiences" (by decide),
        mapGetNat_countOccurrences _ "Not Rated" (by decide)]
      omega
    rw [hrb]
    exact pct_sum_bounds5 _ _ _ _ _ _ hT (by omega)
  · have hpart := lengthBuckets_partition works
    have hld : ((analyzeStats works).lengthDistribution.map (fun e => e.percent)).sum
        = jsRoundPct (works.countP (fun w => jsOr0 w.wordCount < 1000)) works.length
          + (jsRoundPct (works.countP (fun w => 1000 ≤ jsOr0 w.wordCount ∧ jsOr0 w.wordCount < 5000)) works.length
          + (jsRoundPct (works.countP (fun w => 5000 ≤ jsOr0 w.wordCount ∧ jsOr0 w.wordCount < 20000)) works.length
          + (jsRoundPct (works.countP (fun w => 20000 ≤ jsOr0 w.wordCount ∧ jsOr0 w.wordCount < 50000)) works.length
          + (jsRoundPct (works.countP (fun w => 50000 ≤ jsOr0 w.wordCount ∧ jsOr0 w.wordCount < 100000)) works.length
          + jsRoundPct (works.countP (fun w => 100000 ≤ jsOr0 w.wordCount)) works.length)))) := by
      simp only [analyzeStats, mkLengthDistribution, List.map_cons, List.map_nil,
        List.sum_cons, List.sum_nil]
      omega
    rw [hld]
    exact pct_sum_bounds6 _ _ _ _ _ _ _ hT (by omega)

def ratedW (wid : String) (r : String) (wc : Nat) : WorkItem :=
  { testItem wid 1 with rating := some r, wordCount := some wc }

def wsRated : List WorkItem :=
  [ratedW "1" "Explicit" 500, ratedW "2" "General Audiences" 2000,
   ratedW "3" "General Audiences" 6000]

theorem percent_sums_amended_witness :
    wsRated ≠ [] ∧ (∀ w ∈ wsRated, jsRatingOf w ∈ ratingOrder) ∧
    (98 ≤ ((analyzeStats wsRated).ratingBreakdown.map (fun e => e.percent)).sum ∧
      ((analyzeStats wsRated).ratingBreakdown.map (fun e => e.percent)).sum ≤ 102) ∧
    (98 ≤ ((analyzeStats wsRated).lengthDistribution.map (fun e => e.percent)).sum ∧
      ((analyzeStats wsRated).lengthDistribution.map (fun e => e.percent)).sum ≤ 103) :=
  ⟨by decide, by decide,
    (percent_sums_amended wsRated (by decide)).1 (by decide),
    (percent_sums_amended wsRated (by decide)).2⟩

/-! ## C10 — rarest-pair fallback -/

theorem bumpCount_ne_nil (m : List (String × Nat)) (key : String) :
    bumpCount m key ≠ [] := by
  unfold bumpCount
  split
  · cases m with
    | nil => simp_all
    | cons e m => simp
  · simp

theorem countOccurrences_foldl_ne_nil : ∀ (items : List String) (m : List (String × Nat)),
    (m ≠ [] ∨ ∃ t ∈ items, t ≠ "") →
    items.foldl (fun m item => if item = "" then m else bumpCount m item) m ≠ [] := by
  intro items
  induction items with
  | nil =>
    intro m hm
    rcases hm with hm | ⟨t, ht, _⟩
    · simpa using hm
    · cases ht
  | cons it rest ih =>
    intro m hm
    simp only [List.foldl_cons]
    by_cases hit : it = ""
    · rw [if_pos hit]
      apply ih
      rcases hm with hm | ⟨t, ht, hne⟩
      · exact Or.inl hm
      · rcases List.mem_cons.mp ht with rfl | ht'
        · exact absurd hit hne
        · exact Or.inr ⟨t, ht', hne⟩
    · rw [if_neg hit]
      exact ih _ (Or.inl (bumpCount_ne_nil m it))

/-- `countOccurrences` is non-empty as soon as one counted (non-falsy)
string occurs. -/
theorem countOccurrences_ne_nil (items : List String)
    (h : ∃ t ∈ items, t ≠ "") : countOccurrences items ≠ [] := by
  rw [countOccurrences]
  exact countOccurrences_foldl_ne_nil items [] (Or.inr h)

/-- Every key of `countOccurrences` is a non-empty string. -/
theorem countOccurrences_key_ne_empty (items : List String) :
    ∀ e ∈ countOccurrences items, e.1 ≠ "" := by
  rw [countOccurrences]
  suffices hgen : ∀ m : List (String × Nat), (∀ e ∈ m, e.1 ≠ "") →
      ∀ e ∈ items.foldl (fun m item => if item = "" then m else bumpCount m item) m,
        e.1 ≠ "" by
    exact hgen [] (by intro e he; cases he)
  induction items with
  | nil => intro m hm; simpa using hm
  | cons it rest ih =>
    intro m hm
    simp only [List.foldl_cons]
    by_cases hit : it = ""
    · rw [if_pos hit]; exact ih m hm
    · rw [if_neg hit]
      apply ih
      intro e he
      unfold bumpCount at he
      split at he
      · obtain ⟨e0, he0, rfl⟩ := List.mem_map.mp he
        split
        · exact hm e0 he0
        · exact hm e0 he0
      · rcases List.mem_append.mp he with he' | he'
        · exact hm e he'
        · simp only [List.mem_singleton] at he'
          subst he'
          exact hit

/-- C10: with at least one relationship tag present but no relationship tag
occurring exactly once, `rarestPair` is not left null — it falls back to
the first component of the last entry of `topShips` (the least-frequent
ship among the displayed top 10). -/
theorem rarestPair_fallback (works : List WorkItem) (hne : works ≠ [])
    (htag : ∃ w ∈ works, ∃ t ∈ w.relationships, t ≠ "")
    (hno1 : ∀ p ∈ shipCountsOf works, p.2 ≠ 1) :
    ∃ e, (analyzeStats works).topShips.getLast? = some e ∧
      (analyzeStats works).rarestPair = some e.1 := by
  have hsc_ne : shipCountsOf works ≠ [] := by
    apply countOccurrences_ne_nil
    obtain ⟨w, hw, t, ht, htne⟩ := htag
    exact ⟨t, List.mem_flatMap.mpr ⟨w, hw, ht⟩, htne⟩
  have hsorted_ne : List.insertionSort (fun a b : String × Nat => b.2 ≤ a.2)
      (shipCountsOf works) ≠ [] := by
    intro hnil
    apply hsc_ne
    have := (List.perm_insertionSort (fun a b : String × Nat => b.2 ≤ a.2)
      (shipCountsOf works)).length_eq
    rw [hnil] at this
    exact List.length_eq_zero.mp this.symm
  have htop_ne : topShipsOf works ≠ [] := by
    unfold topShipsOf getTopN
    rw [Ne, List.take_eq_nil_iff]
    push_neg
    exact ⟨by omega, hsorted_ne⟩
  have hlast : ∃ e, (topShipsOf works).getLast? = some e := by
    cases hl : (topShipsOf works).getLast? with
    | none => exact absurd (List.getLast?_eq_none_iff.mp hl) htop_ne
    | some e => exact ⟨e, rfl⟩
  obtain ⟨e, he⟩ := hlast
  have hemem : e ∈ shipCountsOf works := by
    have h1 : e ∈ topShipsOf works := List.mem_of_mem_getLast? he
    have h2 : e ∈ List.insertionSort (fun a b : String × Nat => b.2 ≤ a.2)
        (shipCountsOf works) := List.take_subset _ _ h1
    exact (List.mem_insertionSort _).mp h2
  have hkey : e.1 ≠ "" := countOccurrences_key_ne_empty _ e hemem
  have hrare : rareShipsOf works = [] := by
    unfold rareShipsOf
    have : (shipCountsOf works).filter (fun e => e.2 == 1) = [] := by
      rw [List.filter_eq_nil_iff]
      intro p hp hq
      exact hno1 p hp (by simpa using hq)
    rw [this, List.map_nil]
  refine ⟨e, he, ?_⟩
  have hrp : (analyzeStats works).rarestPair = rarestPairOf works := rfl
  rw [hrp]
  unfold rarestPairOf
  rw [hrare]
  simp only [he, Option.map_some]
  unfold jsStrOrNull
  simp [hkey]

def shipW (wid : String) (ships : List String) : WorkItem :=
  { testItem wid 1 with relationships := ships }

def wsShips : List WorkItem :=
  [shipW "1" ["A/B"], shipW "2" ["A/B", "C/D"], shipW "3" ["C/D"]]

theorem rarestPair_fallback_witness :
    wsShips ≠ [] ∧ (∃ w ∈ wsShips, ∃ t ∈ w.relationships, t ≠ "") ∧
    (∀ p ∈ shipCountsOf wsShips, p.2 ≠ 1) ∧
    (∃ e, (analyzeStats wsShips).topShips.getLast? = some e ∧
      (analyzeStats wsShips).rarestPair = some e.1) :=
  ⟨by decide, by decide, by decide,
    rarestPair_fallback wsShips (by decide) (by decide) (by decide)⟩

/-! ## C9 — bookmark statistics test fields the scraper never sets -/

/-- C9: on any non-empty collection as the Harvester produces it (records
never carry `source` or `isBookmarked` — `parseBookmarkItem` and
`mergeItems` only ever set `isBookmark`), the analyzer's bookmark
statistics see zero bookmarks: `totalBookmarks = 0`, the ratio is 0, the
personality is classified "dangerous", and `secretFavorite` is simply the
highest-visit-count record with at least 2 visits, regardless of any
record's `isBookmark` flag. -/
theorem bookmarkStats_field_mismatch (works : List WorkItem) (hne : works ≠ [])
    (hsrc : ∀ w ∈ works, w.source = none) (hbk : ∀ w ∈ works, w.isBookmarked = false) :
    (analyzeStats works).bookmarkStats.totalBookmarks = 0
    ∧ (analyzeStats works).bookmarkStats.bookmarkRatioPct = 0
    ∧ (analyzeStats works).bookmarkStats.personality.type = "dangerous"
    ∧ (∀ w, (analyzeStats works).bookmarkStats.secretFavorite = some w →
        w ∈ works ∧ 2 ≤ w.visitCount
          ∧ ∀ v ∈ works, 2 ≤ v.visitCount → v.visitCount ≤ w.visitCount)
    ∧ ((∃ w ∈ works, 2 ≤ w.visitCount) →
        (analyzeStats works).bookmarkStats.secretFavorite ≠ none) := by
  have hT : 0 < works.length := List.length_pos.mpr hne
  have hbw : works.filter isBookmarkedWork = [] := by
    rw [List.filter_eq_nil_iff]
    intro w hw
    simp [isBookmarkedWork, hsrc w hw, hbk w hw]
  have hrev : works.filter isRevisitedNotBookmarked
      = works.filter (fun w => decide (2 ≤ w.visitCount)) := by
    apply List.filter_congr
    intro w hw
    simp [isRevisitedNotBookmarked, hsrc w hw, hbk w hw]
  have hzero : jsRoundPct 0 works.length = 0 := by
    unfold jsRoundPct
    apply Nat.div_eq_of_lt
    omega
  have hbs : (analyzeStats works).bookmarkStats = mkBookmarkStats works := rfl
  rw [hbs]
  unfold mkBookmarkStats
  simp only [hbw, hrev, List.length_nil, hT, if_true, hzero]
  refine ⟨by trivial, by trivial, by norm_num, ?_, ?_⟩
  · intro w hw
    set r : WorkItem → WorkItem → Prop := fun a b => b.visitCount ≤ a.visitCount with hr
    haveI : IsTotal WorkItem r := ⟨fun a b => Nat.le_total b.visitCount a.visitCount⟩
    haveI : IsTrans WorkItem r := ⟨fun a b c hab hbc => Nat.le_trans hbc hab⟩
    have hsorted : List.Sorted r (List.insertionSort r
        (works.filter (fun x => decide (2 ≤ x.visitCount)))) :=
      List.sorted_insertionSort r _
    cases hl : List.insertionSort r (works.filter (fun x => decide (2 ≤ x.visitCount))) with
    | nil => rw [hl] at hw; cases hw
    | cons a tl =>
      rw [hl] at hw
      simp only [List.head?_cons, Option.some_inj] at hw
      subst hw
      have hmem : a ∈ works.filter (fun x => decide (2 ≤ x.visitCount)) := by
        have hmem0 : a ∈ List.insertionSort r
            (works.filter (fun x => decide (2 ≤ x.visitCount))) := by
          rw [hl]
          exact List.mem_cons_self _ _
        exact (List.mem_insertionSort r).mp hmem0
      obtain ⟨hwin, hwvc⟩ := List.mem_filter.mp hmem
      refine ⟨hwin, by simpa using hwvc, ?_⟩
      intro v hv hvc
      have hvmem : v ∈ List.insertionSort r (works.filter (fun x => decide (2 ≤ x.visitCount))) := by
        rw [List.mem_insertionSort]
        exact List.mem_filter.mpr ⟨hv, by simpa using hvc⟩
      rw [hl] at hvmem
      rw [hl] at hsorted
      rcases List.mem_cons.mp hvmem with rfl | hvtl
      · exact Nat.le_refl _
      · exact List.rel_of_sorted_cons hsorted v hvtl
  · rintro ⟨v, hv, hvc⟩
    set r : WorkItem → WorkItem → Prop := fun a b => b.visitCount ≤ a.visitCount with hr
    have hvmem : v ∈ List.insertionSort r (works.filter (fun x => decide (2 ≤ x.visitCount))) := by
      rw [List.mem_insertionSort]
      exact List.mem_filter.mpr ⟨hv, by simpa using hvc⟩
    intro hnone
    rw [List.head?_eq_none_iff.mp hnone] at hvmem
    cases hvmem

def wsBookmark : List WorkItem :=
  [testItem "1" 1, { testItem "5" 4 with isBookmark := true }, testItem "7" 3]

theorem bookmarkStats_field_mismatch_witness :
    wsBookmark ≠ [] ∧ (∀ w ∈ wsBookmark, w.source = none) ∧
    (∀ w ∈ wsBookmark, w.isBookmarked = false) ∧
    ((analyzeStats wsBookmark).bookmarkStats.totalBookmarks = 0
      ∧ (analyzeStats wsBookmark).bookmarkStats.bookmarkRatioPct = 0
      ∧ (analyzeStats wsBookmark).bookmarkStats.personality.type = "dangerous"
      ∧ (∀ w, (analyzeStats wsBookmark).bookmarkStats.secretFavorite = some w →
          w ∈ wsBookmark ∧ 2 ≤ w.visitCount
            ∧ ∀ v ∈ wsBookmark, 2 ≤ v.visitCount → v.visitCount ≤ w.visitCount)
      ∧ ((∃ w ∈ wsBookmark, 2 ≤ w.visitCount) →
          (analyzeStats wsBookmark).bookmarkStats.secretFavorite ≠ none)) :=
  ⟨by decide, by decide, by decide,
    bookmarkStats_field_mismatch wsBookmark (by decide) (by decide) (by decide)⟩

/-! ## C1 — merge uniqueness and flag union -/

theorem setFlag_eq_self (y : WorkItem) (h : y.isBookmark = true) :
    { y with isBookmark := true } = y := by
  cases y
  simp_all

/-- `jsMapSet` keeps the looked-up entry for the written key: it is the
newly written item. -/
theorem jsMapSet_find?_self (m : List WorkItem) (it : WorkItem) :
    List.find? (fun e => e.workId == it.workId) (jsMapSet m it) = some it := by
  unfold jsMapSet
  by_cases hany : (m.any (fun e => e.workId == it.workId)) = true
  · rw [if_pos hany]
    have hg := find?_key_map (fun e : WorkItem => e.workId)
      (fun e => if (e.workId == it.workId) = true then it else e)
      (fun e => by
        by_cases h : (e.workId == it.workId) = true
        · simp only [h, if_true]
          exact (beq_iff_eq.mp h).symm
        · simp [h]) it.workId m
    rw [hg]
    rw [List.any_eq_true] at hany
    obtain ⟨e, hem, he⟩ := hany
    cases hf : List.find? (fun e : WorkItem => e.workId == it.workId) m with
    | none =>
      rw [List.find?_eq_none] at hf
      exact absurd he (hf e hem)
    | some e0 =>
      have he0 := List.find?_some hf
      rw [Option.map_some']
      rw [if_pos he0]
  · rw [if_neg hany]
    rw [List.find?_append]
    have hnone : List.find? (fun e : WorkItem => e.workId == it.workId) m = none := by
      rw [List.find?_eq_none]
      intro x hx hpx
      exact hany (List.any_eq_true.mpr ⟨x, hx, hpx⟩)
    rw [hnone, Option.none_or]
    exact @List.find?_cons_of_pos WorkItem (fun e => e.workId == it.workId) it []
      (beq_self_eq_true it.workId)

/-- `jsMapSet` leaves every other key's entry unchanged. -/
theorem jsMapSet_find?_other (m : List WorkItem) (it : WorkItem) (wid : String)
    (h : wid ≠ it.workId) :
    List.find? (fun e => e.workId == wid) (jsMapSet m it)
      = List.find? (fun e => e.workId == wid) m := by
  unfold jsMapSet
  by_cases hany : (m.any (fun e => e.workId == it.workId)) = true
  · rw [if_pos hany]
    have hg := find?_key_map (fun e : WorkItem => e.workId)
      (fun e => if (e.workId == it.workId) = true then it else e)
      (fun e => by
        by_cases hc : (e.workId == it.workId) = true
        · simp only [hc, if_true]
          exact (beq_iff_eq.mp hc).symm
        · simp [hc]) wid m
    rw [hg]
    cases hf : List.find? (fun e : WorkItem => e.workId == wid) m with
    | none => rfl
    | some e0 =>
      have he0 := List.find?_some hf
      have hprop : ¬ e0.workId = it.workId := by
        rw [beq_iff_eq] at he0
        rw [he0]
        exact h
      have hne : (e0.workId == it.workId) = false := beq_eq_false_iff_ne.mpr hprop
      simp [hne, hprop]
  · rw [if_neg hany, List.find?_append]
    have h1 : List.find? (fun e : WorkItem => e.workId == wid) [it] = none := by
      have hb : (it.workId == wid) = false := beq_eq_false_iff_ne.mpr (fun hx => h hx.symm)
      simp [List.find?_cons, hb]
    rw [h1, Option.or_none]

/-- `mergeBookmarkStep` on an already-present key sets that entry's flag. -/
theorem mergeBookmarkStep_find?_hit (m : List WorkItem) (it : WorkItem) (x : WorkItem)
    (hf : List.find? (fun e => e.workId == it.workId) m = some x) :
    List.find? (fun e => e.workId == it.workId) (mergeBookmarkStep m it)
      = some { x with isBookmark := true } := by
  unfold mergeBookmarkStep
  have hx : (x.workId == it.workId) = true := by
    have hx0 := List.find?_some hf
    exact hx0
  have hany : (m.any (fun e => e.workId == it.workId)) = true :=
    List.any_eq_true.mpr ⟨x, List.mem_of_find?_eq_some hf, hx⟩
  rw [if_pos hany]
  have hg := find?_key_map (fun e : WorkItem => e.workId)
    (fun e => if (e.workId == it.workId) = true then { e with isBookmark := true } else e)
    (fun e => by by_cases hc : (e.workId == it.workId) = true <;> simp [hc]) it.workId m
  rw [hg, hf, Option.map_some']
  rw [if_pos hx]

/-- `mergeBookmarkStep` leaves every other key's entry unchanged. -/
theorem mergeBookmarkStep_find?_other (m : List WorkItem) (it : WorkItem) (wid : String)
    (h : wid ≠ it.workId) :
    List.find? (fun e => e.workId == wid) (mergeBookmarkStep m it)
      = List.find? (fun e => e.workId == wid) m := by
  unfold mergeBookmarkStep
  by_cases hany : (m.any (fun e => e.workId == it.workId)) = true
  · rw [if_pos hany]
    have hg := find?_key_map (fun e : WorkItem => e.workId)
      (fun e => if (e.workId == it.workId) = true then { e with isBookmark := true } else e)
      (fun e => by by_cases hc : (e.workId == it.workId) = true <;> simp [hc]) wid m
    rw [hg]
    cases hf : List.find? (fun e : WorkItem => e.workId == wid) m with
    | none => rfl
    | some e0 =>
      have he0 := List.find?_some hf
      have hprop : ¬ e0.workId = it.workId := by
        rw [beq_iff_eq] at he0
        rw [he0]
        exact h
      have hne : (e0.workId == it.workId) = false := beq_eq_false_iff_ne.mpr hprop
      simp [hne, hprop]
  · rw [if_neg hany, List.find?_append]
    have h1 : List.find? (fun e : WorkItem => e.workId == wid) [it] = none := by
      have hb : (it.workId == wid) = false := beq_eq_false_iff_ne.mpr (fun hx => h hx.symm)
      simp [List.find?_cons, hb]
    rw [h1, Option.or_none]

theorem jsMapSet_keys_nodup (m : List WorkItem) (it : WorkItem)
    (h : (m.map (fun e => e.workId)).Nodup) :
    ((jsMapSet m it).map (fun e => e.workId)).Nodup := by
  unfold jsMapSet
  by_cases hany : (m.any (fun e => e.workId == it.workId)) = true
  · rw [if_pos hany]
    have hkeys : (m.map (fun e => if (e.workId == it.workId) = true then it else e)).map
        (fun e => e.workId) = m.map (fun e => e.workId) := by
      rw [List.map_map]
      apply List.map_congr_left
      intro e _
      simp only [Function.comp]
      by_cases hc : (e.workId == it.workId) = true
      · simp only [hc, if_true]
        exact (beq_iff_eq.mp hc).symm
      · simp [hc]
    rw [hkeys]
    exact h
  · rw [if_neg hany, List.map_append]
    rw [List.nodup_append]
    refine ⟨h, List.nodup_singleton _, ?_⟩
    intro a ha hb
    simp only [List.map_cons, List.map_nil, List.mem_singleton] at hb
    subst hb
    obtain ⟨e, hem, hek⟩ := List.mem_map.mp ha
    exact hany (List.any_eq_true.mpr ⟨e, hem, beq_iff_eq.mpr hek⟩)

theorem mergeBookmarkStep_keys_nodup (m : List WorkItem) (it : WorkItem)
    (h : (m.map (fun e => e.workId)).Nodup) :
    ((mergeBookmarkStep m it).map (fun e => e.workId)).Nodup := by
  unfold mergeBookmarkStep
  by_cases hany : (m.any (fun e => e.workId == it.workId)) = true
  · rw [if_pos hany]
    have hkeys : (m.map (fun e => if (e.workId == it.workId) = true
        then { e with isBookmark := true } else e)).map
        (fun e => e.workId) = m.map (fun e => e.workId) := by
      rw [List.map_map]
      apply List.map_congr_left
      intro e _
      simp only [Function.comp]
      by_cases hc : (e.workId == it.workId) = true <;> simp [hc]
    rw [hkeys]
    exact h
  · rw [if_neg hany, List.map_append]
    rw [List.nodup_append]
    refine ⟨h, List.nodup_singleton _, ?_⟩
    intro a ha hb
    simp only [List.map_cons, List.map_nil, List.mem_singleton] at hb
    subst hb
    obtain ⟨e, hem, hek⟩ := List.mem_map.mp ha
    exact hany (List.any_eq_true.mpr ⟨e, hem, beq_iff_eq.mpr hek⟩)

theorem foldl_jsMapSet_nodup (hs : List WorkItem) : ∀ (m : List WorkItem),
    ((m.map (fun e => e.workId)).Nodup) →
    (((hs.foldl jsMapSet m).map (fun e => e.workId)).Nodup) := by
  induction hs with
  | nil => intro m h; exact h
  | cons it rest ih =>
    intro m h
    simp only [List.foldl_cons]
    exact ih _ (jsMapSet_keys_nodup m it h)

theorem foldl_mergeBookmarkStep_nodup (bs : List WorkItem) : ∀ (m : List WorkItem),
    ((m.map (fun e => e.workId)).Nodup) →
    (((bs.foldl mergeBookmarkStep m).map (fun e => e.workId)).Nodup) := by
  induction bs with
  | nil => intro m h; exact h
  | cons it rest ih =>
    intro m h
    simp only [List.foldl_cons]
    exact ih _ (mergeBookmarkStep_keys_nodup m it h)

theorem foldl_jsMapSet_find?_untouched (hs : List WorkItem) : ∀ (m : List WorkItem)
    (wid : String), (∀ e ∈ hs, e.workId ≠ wid) →
    List.find? (fun e => e.workId == wid) (hs.foldl jsMapSet m)
      = List.find? (fun e => e.workId == wid) m := by
  induction hs with
  | nil => intro m wid _; rfl
  | cons it rest ih =>
    intro m wid hne
    simp only [List.foldl_cons]
    rw [ih _ wid (fun e he => hne e (List.mem_cons_of_mem _ he)),
      jsMapSet_find?_other m it wid
        (fun h => hne it (List.mem_cons_self _ _) h.symm)]

/-- After the history seeding phase, every key present in the history list
resolves to one of the history records carrying that key. -/
theorem foldl_jsMapSet_find?_of_mem (hs : List WorkItem) : ∀ (m : List WorkItem)
    (wid : String), wid ∈ hs.map (fun e => e.workId) →
    ∃ hrec, hrec ∈ hs ∧ hrec.workId = wid ∧
      List.find? (fun e => e.workId == wid) (hs.foldl jsMapSet m) = some hrec := by
  induction hs with
  | nil => intro m wid h; cases h
  | cons it rest ih =>
    intro m wid hmem
    simp only [List.foldl_cons]
    by_cases hw : wid ∈ rest.map (fun e => e.workId)
    · obtain ⟨hrec, h1, h2, h3⟩ := ih (jsMapSet m it) wid hw
      exact ⟨hrec, List.mem_cons_of_mem _ h1, h2, h3⟩
    · have hwid : wid = it.workId := by
        rw [List.map_cons] at hmem
        rcases List.mem_cons.mp hmem with h | h
        · exact h
        · exact absurd h hw
      subst hwid
      refine ⟨it, List.mem_cons_self _ _, rfl, ?_⟩
      rw [foldl_jsMapSet_find?_untouched rest _ it.workId
        (fun e he heq => hw (List.mem_map.mpr ⟨e, he, heq⟩))]
      exact jsMapSet_find?_self m it

/-- Once an entry carries the bookmark flag, the rest of the bookmark phase
leaves it untouched. -/
theorem foldl_mergeBookmarkStep_stable (bs : List WorkItem) : ∀ (m : List WorkItem)
    (wid : String) (y : WorkItem),
    List.find? (fun e => e.workId == wid) m = some y → y.isBookmark = true →
    List.find? (fun e => e.workId == wid) (bs.foldl mergeBookmarkStep m) = some y := by
  induction bs with
  | nil => intro m wid y hf _; exact hf
  | cons it rest ih =>
    intro m wid y hf hy
    simp only [List.foldl_cons]
    by_cases hw : wid = it.workId
    · subst hw
      have hstep := mergeBookmarkStep_find?_hit m it y hf
      rw [setFlag_eq_self y hy] at hstep
      exact ih _ _ _ hstep hy
    · refine ih _ _ _ ?_ hy
      rw [mergeBookmarkStep_find?_other m it wid hw]
      exact hf

/-- A key present in the bookmark list ends the bookmark phase with its
entry equal to the seeded record with the bookmark flag set. -/
theorem foldl_mergeBookmarkStep_hit (bs : List WorkItem) : ∀ (m : List WorkItem)
    (wid : String) (x : WorkItem),
    wid ∈ bs.map (fun e => e.workId) →
    List.find? (fun e => e.workId == wid) m = some x →
    List.find? (fun e => e.workId == wid) (bs.foldl mergeBookmarkStep m)
      = some { x with isBookmark := true } := by
  induction bs with
  | nil => intro m wid x h _; cases h
  | cons it rest ih =>
    intro m wid x hmem hf
    simp only [List.foldl_cons]
    by_cases hw : wid = it.workId
    · subst hw
      have hstep := mergeBookmarkStep_find?_hit m it x hf
      exact foldl_mergeBookmarkStep_stable rest _ _ _ hstep rfl
    · have hmem' : wid ∈ rest.map (fun e => e.workId) := by
        rw [List.map_cons] at hmem
        rcases List.mem_cons.mp hmem with h | h
        · exact absurd h hw
        · exact h
      refine ih _ _ _ hmem' ?_
      rw [mergeBookmarkStep_find?_other m it wid hw]
      exact hf

/-- In a collection with duplicate-free keys, filtering on the key of the
found entry gives exactly that entry. -/
theorem filter_key_singleton : ∀ (m : List WorkItem) (wid : String) (x : WorkItem),
    ((m.map (fun e => e.workId)).Nodup) →
    List.find? (fun e => e.workId == wid) m = some x →
    m.filter (fun e => e.workId == wid) = [x] := by
  intro m
  induction m with
  | nil => intro wid x _ hf; exact absurd hf (by simp)
  | cons e m ih =>
    intro wid x hnd hf
    rw [List.map_cons, List.nodup_cons] at hnd
    by_cases hp : (e.workId == wid) = true
    · rw [List.find?_cons] at hf
      simp only [hp] at hf
      have hex : e = x := by simpa using hf
      subst hex
      rw [List.filter_cons]
      simp only [hp, if_true]
      have hnil : m.filter (fun e2 => e2.workId == wid) = [] := by
        rw [List.filter_eq_nil_iff]
        intro a ham hpa
        apply hnd.1
        have ha : a.workId = e.workId := by
          rw [beq_iff_eq] at hpa hp
          rw [hpa, hp]
        exact List.mem_map.mpr ⟨a, ham, ha⟩
      rw [hnil]
    · rw [List.find?_cons] at hf
      simp only [hp] at hf
      rw [List.filter_cons]
      simp only [hp, if_false]
      exact ih wid x hnd.2 hf

/-- C1: the merged collection contains no two records with the same
`workId`; and every `workId` present in both inputs resolves to exactly one
merged record — a history record for that id with its bookmark flag set to
true (hence keeping the history-side `visitCount` and `lastVisited`). -/
theorem mergeItems_spec (historyItems bookmarkItems : List WorkItem) :
    (((mergeItems historyItems bookmarkItems).map (fun e => e.workId)).Nodup)
    ∧ ∀ wid, wid ∈ historyItems.map (fun e => e.workId) →
        wid ∈ bookmarkItems.map (fun e => e.workId) →
      ∃ hrec, hrec ∈ historyItems ∧ hrec.workId = wid ∧
        (mergeItems historyItems bookmarkItems).filter (fun e => e.workId == wid)
          = [{ hrec with isBookmark := true }]
        ∧ ({ hrec with isBookmark := true }).visitCount = hrec.visitCount
        ∧ ({ hrec with isBookmark := true }).lastVisited = hrec.lastVisited := by
  have hnd1 := foldl_jsMapSet_nodup historyItems [] (by simp)
  have hnd2 := foldl_mergeBookmarkStep_nodup bookmarkItems _ hnd1
  refine ⟨hnd2, ?_⟩
  intro wid hh hb
  obtain ⟨hrec, hmem, hkey, hfind⟩ := foldl_jsMapSet_find?_of_mem historyItems [] wid hh
  have hfind2 := foldl_mergeBookmarkStep_hit bookmarkItems _ wid hrec hb hfind
  exact ⟨hrec, hmem, hkey, filter_key_singleton _ wid _ hnd2 hfind2, rfl, rfl⟩

def histMergeList : List WorkItem := [testItem "1" 3, testItem "2" 1]

def bookMergeList : List WorkItem :=
  [{ testItem "1" 1 with isBookmark := true }, { testItem "9" 1 with isBookmark := true }]

theorem mergeItems_spec_witness :
    (((mergeItems histMergeList bookMergeList).map (fun e => e.workId)).Nodup)
    ∧ "1" ∈ histMergeList.map (fun e => e.workId)
    ∧ "1" ∈ bookMergeList.map (fun e => e.workId)
    ∧ ∃ hrec, hrec ∈ histMergeList ∧ hrec.workId = "1" ∧
        (mergeItems histMergeList bookMergeList).filter (fun e => e.workId == "1")
          = [{ hrec with isBookmark := true }]
        ∧ ({ hrec with isBookmark := true }).visitCount = hrec.visitCount
        ∧ ({ hrec with isBookmark := true }).lastVisited = hrec.lastVisited :=
  ⟨(mergeItems_spec histMergeList bookMergeList).1, by decide, by decide,
    (mergeItems_spec histMergeList bookMergeList).2 "1" (by decide) (by decide)⟩

def filterWitnessSettings : FilterSettings :=
  { wordCountMin := 1000, wordCountMax := 50000, ratings := ["Explicit", "Unknown"] }

theorem applyFilters_spec_witness :
    (lenW "1" 2000) ∈ applyFilters [lenW "1" 2000, lenW "2" 100] filterWitnessSettings ∧
    applyFilters (applyFilters [lenW "1" 2000, lenW "2" 100] filterWitnessSettings)
        filterWitnessSettings
      = applyFilters [lenW "1" 2000, lenW "2" 100] filterWitnessSettings :=
  ⟨((applyFilters_spec [lenW "1" 2000, lenW "2" 100] filterWitnessSettings).1
      (lenW "1" 2000)).mpr (by decide),
   (applyFilters_spec [lenW "1" 2000, lenW "2" 100] filterWitnessSettings).2⟩

/-! ## C4 — cancellation: amended dichotomy

A cancellation point is observed by the first check it precedes, and the
checks of a run see monotonically growing fetch counts; so a run with the
flag set either resolves to the cancelled result, or — when every check
fires before the flag is set — behaves exactly like the uncancelled run. -/

theorem pagesLoop_cancel_cases (fp : Nat → Option (List WorkItem)) (phase : String)
    (mk : Nat → ℚ) (k : Nat) : ∀ (remaining page fetches : Nat) (acc : List WorkItem),
    (pagesLoop fp phase mk (some k) remaining page fetches acc
        = pagesLoop fp phase mk none remaining page fetches acc
      ∧ ∀ c, Ev.check c ∈ (pagesLoop fp phase mk none remaining page fetches acc).trace → c < k)
    ∨ (pagesLoop fp phase mk (some k) remaining page fetches acc).out
        = .error .cancelled := by
  intro remaining
  induction remaining with
  | zero =>
    intro page fetches acc
    left
    refine ⟨rfl, ?_⟩
    intro c hc
    simp [pagesLoop] at hc
  | succ r ih =>
    intro page fetches acc
    by_cases hk : k ≤ fetches
    · right
      have hcs : cancelSet (some k) fetches = true := by
        simp [cancelSet]
        omega
      simp [pagesLoop, hcs]
    · have hcs : cancelSet (some k) fetches = false := by
        simp [cancelSet]
        omega
      have hcn : cancelSet none fetches = false := rfl
      cases hpf : fp page with
      | none =>
        left
        constructor
        · simp [pagesLoop, hcs, hcn, hpf]
        · intro c hc
          simp [pagesLoop, hcn, hpf] at hc
          omega
      | some items =>
        rcases ih (page + 1) (fetches + 1) (acc ++ items) with ⟨heq, hchk⟩ | herr
        · left
          constructor
          · simp [pagesLoop, hcs, hcn, hpf, heq]
          · intro c hc
            simp only [pagesLoop, hcn, Bool.false_eq_true, if_false, hpf,
              List.mem_cons, List.mem_append] at hc
            rcases hc with hc | hc | hc | hc
            · cases hc
              omega
            · cases hc
            · cases hc
            · rcases hc with hc | hc
              · split at hc <;> simp at hc
              · exact hchk c hc
        · right
          simp [pagesLoop, hcs, hpf]
          exact herr

theorem enrichLoop_cancel_cases (detail : String → Option WorkMeta) (total k : Nat) :
    ∀ (items : List WorkItem) (completed failedCount fetches : Nat) (acc : List WorkItem),
    (enrichLoop detail (some k) total items completed failedCount fetches acc
        = enrichLoop detail none total items completed failedCount fetches acc
      ∧ ∀ c, Ev.check c ∈
          (enrichLoop detail none total items completed failedCount fetches acc).trace → c < k)
    ∨ (enrichLoop detail (some k) total items completed failedCount fetches acc).out
        = .error .cancelled := by
  intro items
  induction items with
  | nil =>
    intro completed failedCount fetches acc
    left
    refine ⟨rfl, ?_⟩
    intro c hc
    simp [enrichLoop] at hc
  | cons it rest ih =>
    intro completed failedCount fetches acc
    by_cases hk : k ≤ fetches
    · right
      have hcs : cancelSet (some k) fetches = true := by
        simp [cancelSet]
        omega
      simp [enrichLoop, hcs]
    · have hcs : cancelSet (some k) fetches = false := by
        simp [cancelSet]
        omega
      have hcn : cancelSet none fetches = false := rfl
      rcases ih (completed + 1)
          (match detail it.workId with | some _ => failedCount | none => failedCount + 1)
          (fetches + 1)
          (acc ++ [match detail it.workId with | some md => assignMeta it md | none => it])
        with ⟨heq, hchk⟩ | herr
      · left
        constructor
        · simp only [enrichLoop, hcs, hcn, Bool.false_eq_true, if_false]
          rw [heq]
        · intro c hc
          simp only [enrichLoop, hcn, Bool.false_eq_true, if_false,
            List.mem_cons, List.mem_append] at hc
          rcases hc with hc | hc | hc | hc
          · cases hc
            omega
          · cases hc
          · cases hc
          · rcases hc with hc | hc
            · split at hc <;> simp at hc
            · exact hchk c hc
      · right
        simp only [enrichLoop, hcs, Bool.false_eq_true, if_false]
        exact herr

theorem historyRun_cancel_cases (env : ScrapeEnv) (opts : ScrapeOptions) (k fetches : Nat) :
    (scrapeReadingHistoryRun env (some k) opts fetches
        = scrapeReadingHistoryRun env none opts fetches
      ∧ ∀ c, Ev.check c ∈ (scrapeReadingHistoryRun env none opts fetches).trace → c < k)
    ∨ (scrapeReadingHistoryRun env (some k) opts fetches).out = .error .cancelled := by
  unfold scrapeReadingHistoryRun
  cases hhp : env.historyPages with
  | none =>
    left
    refine ⟨rfl, ?_⟩
    intro c hc
    simp at hc
  | some n =>
    rcases pagesLoop_cancel_cases env.historyPage "history"
        (historyPercent (clampPages opts (n.max 1))) k
        (clampPages opts (n.max 1)) 1 (fetches + 1) [] with ⟨heq, hchk⟩ | herr
    · left
      constructor
      · simp only [heq]
      · intro c hc
        simp only [List.mem_cons] at hc
        rcases hc with hc | hc | hc | hc
        · cases hc
        · cases hc
        · cases hc
        · exact hchk c hc
    · right
      simp only []
      rw [show (pagesLoop env.historyPage "history"
          (historyPercent (clampPages opts (n.max 1))) (some k)
          (clampPages opts (n.max 1)) 1 (fetches + 1) []).out = .error .cancelled from herr]
      rfl

theorem bookmarksRun_cancel_cases (env : ScrapeEnv) (opts : ScrapeOptions) (offset : ℚ)
    (k fetches : Nat) :
    (scrapeBookmarksRun env (some k) opts offset fetches
        = scrapeBookmarksRun env none opts offset fetches
      ∧ ∀ c, Ev.check c ∈ (scrapeBookmarksRun env none opts offset fetches).trace → c < k)
    ∨ (scrapeBookmarksRun env (some k) opts offset fetches).out = .error .cancelled := by
  unfold scrapeBookmarksRun
  cases hbp : env.bookmarkPages with
  | none =>
    left
    refine ⟨rfl, ?_⟩
    intro c hc
    simp at hc
  | some n =>
    rcases pagesLoop_cancel_cases env.bookmarkPage "bookmarks"
        (bookmarksPercent offset (clampPages opts (n.max 1))) k
        (clampPages opts (n.max 1)) 1 (fetches + 1) [] with ⟨heq, hchk⟩ | herr
    · left
      constructor
      · simp only [heq]
      · intro c hc
        simp only [List.mem_cons] at hc
        rcases hc with hc | hc | hc
        · cases hc
        · cases hc
        · exact hchk c hc
    · right
      simp only []
      rw [show (pagesLoop env.bookmarkPage "bookmarks"
          (bookmarksPercent offset (clampPages opts (n.max 1))) (some k)
          (clampPages opts (n.max 1)) 1 (fetches + 1) []).out = .error .cancelled from herr]
      rfl

theorem afterListing_cancel_cases (env : ScrapeEnv) (allItems : List WorkItem)
    (k fetches : Nat) :
    (afterListing env (some k) allItems fetches = afterListing env none allItems fetches
      ∧ ∀ c, Ev.check c ∈ (afterListing env none allItems fetches).1 → c < k)
    ∨ (afterListing env (some k) allItems fetches).2 = ScrapeResult.cancelled := by
  unfold afterListing
  by_cases hemp : allItems.isEmpty = true
  · left
    simp only [hemp, if_true]
    refine ⟨by trivial, ?_⟩
    intro c hc
    simp at hc
  · simp only [hemp, Bool.false_eq_true, if_false]
    rcases enrichLoop_cancel_cases env.detail allItems.length k allItems 0 0 fetches []
      with ⟨heq, hchk⟩ | herr
    · left
      constructor
      · unfold enrichWithMetadataRun
        rw [heq]
      · intro c hc
        unfold enrichWithMetadataRun at hc
        cases hout : (enrichLoop env.detail none allItems.length allItems 0 0 fetches []).out with
        | error e =>
          rw [hout] at hc
          simp only [List.mem_cons] at hc
          rcases hc with hc | hc | hc
          · cases hc
          · cases hc
          · exact hchk c hc
        | ok v =>
          rw [hout] at hc
          simp only [List.mem_cons, List.mem_append] at hc
          rcases hc with hc | hc | hc | hc
          · cases hc
          · cases hc
          · exact hchk c hc
          · simp at hc
    · right
      unfold enrichWithMetadataRun
      rw [show (enrichLoop env.detail (some k) allItems.length allItems 0 0 fetches []).out
          = .error .cancelled from herr]
      rfl

theorem scrapeAllRun_cancel_cases (env : ScrapeEnv) (opts : ScrapeOptions) (k : Nat) :
    ((scrapeAllRun env (some k) opts) = (scrapeAllRun env none opts)
      ∧ ∀ c, Ev.check c ∈ (scrapeAllRun env none opts).1 → c < k)
    ∨ (scrapeAllRun env (some k) opts).2 = ScrapeResult.cancelled := by
  obtain ⟨src, tr, pl⟩ := opts
  cases src with
  | history =>
    rcases historyRun_cancel_cases env ⟨ScrapeSource.history, tr, pl⟩ k 0 with ⟨heq, hchk⟩ | herr
    · cases hout : (scrapeReadingHistoryRun env none ⟨ScrapeSource.history, tr, pl⟩ 0).out with
      | error e =>
        left
        constructor
        · simp only [scrapeAllRun]
          rw [heq, hout]
        · intro c hc
          simp only [scrapeAllRun] at hc
          rw [hout] at hc
          dsimp only at hc
          exact hchk c hc
      | ok itemsH =>
        rcases afterListing_cancel_cases env itemsH k
            (scrapeReadingHistoryRun env none ⟨ScrapeSource.history, tr, pl⟩ 0).fetches
          with ⟨haeq, hachk⟩ | hacz
        · left
          constructor
          · simp only [scrapeAllRun]
            rw [heq, hout]
            dsimp only
            rw [haeq]
          · intro c hc
            simp only [scrapeAllRun] at hc
            rw [hout] at hc
            dsimp only at hc
            simp only [List.mem_append] at hc
            rcases hc with hc | hc
            · exact hchk c hc
            · exact hachk c hc
        · right
          simp only [scrapeAllRun]
          rw [heq, hout]
          dsimp only
          exact hacz
    · right
      simp only [scrapeAllRun]
      rw [herr]
      rfl
  | bookmarks =>
    rcases bookmarksRun_cancel_cases env ⟨ScrapeSource.bookmarks, tr, pl⟩ 0 k 0
      with ⟨heq, hchk⟩ | herr
    · cases hout : (scrapeBookmarksRun env none ⟨ScrapeSource.bookmarks, tr, pl⟩ 0 0).out with
      | error e =>
        left
        constructor
        · simp only [scrapeAllRun]
          rw [heq, hout]
        · intro c hc
          simp only [scrapeAllRun] at hc
          rw [hout] at hc
          dsimp only at hc
          exact hchk c hc
      | ok itemsB =>
        rcases afterListing_cancel_cases env itemsB k
            (scrapeBookmarksRun env none ⟨ScrapeSource.bookmarks, tr, pl⟩ 0 0).fetches
          with ⟨haeq, hachk⟩ | hacz
        · left
          constructor
          · simp only [scrapeAllRun]
            rw [heq, hout]
            dsimp only
            rw [haeq]
          · intro c hc
            simp only [scrapeAllRun] at hc
            rw [hout] at hc
            dsimp only at hc
            simp only [List.mem_append] at hc
            rcases hc with hc | hc
            · exact hchk c hc
            · exact hachk c hc
        · right
          simp only [scrapeAllRun]
          rw [heq, hout]
          dsimp only
          exact hacz
    · right
      simp only [scrapeAllRun]
      rw [herr]
      rfl
  | both =>
    rcases historyRun_cancel_cases env ⟨ScrapeSource.both, tr, pl⟩ k 0 with ⟨heq, hchk⟩ | herr
    · cases hout : (scrapeReadingHistoryRun env none ⟨ScrapeSource.both, tr, pl⟩ 0).out with
      | error e =>
        left
        constructor
        · simp only [scrapeAllRun]
          rw [heq, hout]
        · intro c hc
          simp only [scrapeAllRun] at hc
          rw [hout] at hc
          dsimp only at hc
          exact hchk c hc
      | ok itemsH =>
        rcases bookmarksRun_cancel_cases env ⟨ScrapeSource.both, tr, pl⟩ 30 k
            (scrapeReadingHistoryRun env none ⟨ScrapeSource.both, tr, pl⟩ 0).fetches
          with ⟨hbeq, hbchk⟩ | hberr
        · cases hbout : (scrapeBookmarksRun env none ⟨ScrapeSource.both, tr, pl⟩ 30
              (scrapeReadingHistoryRun env none ⟨ScrapeSource.both, tr, pl⟩ 0).fetches).out with
          | error e =>
            left
            constructor
            · simp only [scrapeAllRun]
              rw [heq, hout]
              dsimp only
              rw [hbeq, hbout]
            · intro c hc
              simp only [scrapeAllRun] at hc
              rw [hout] at hc
              dsimp only at hc
              rw [hbout] at hc
              dsimp only at hc
              simp only [List.mem_append, List.mem_cons, reduceCtorEq, false_or] at hc
              rcases hc with hc | hc
              · exact hchk c hc
              · exact hbchk c hc
          | ok itemsB =>
            rcases afterListing_cancel_cases env (mergeItems itemsH itemsB) k
                (scrapeBookmarksRun env none ⟨ScrapeSource.both, tr, pl⟩ 30
                  (scrapeReadingHistoryRun env none ⟨ScrapeSource.both, tr, pl⟩ 0).fetches).fetches
              with ⟨haeq, hachk⟩ | hacz
            · left
              constructor
              · simp only [scrapeAllRun]
                rw [heq, hout]
                dsimp only
                rw [hbeq, hbout]
                dsimp only
                rw [haeq]
              · intro c hc
                simp only [scrapeAllRun] at hc
                rw [hout] at hc
                dsimp only at hc
                rw [hbout] at hc
                dsimp only at hc
                simp only [List.mem_append, List.mem_cons, reduceCtorEq, false_or] at hc
                rcases hc with (hc | hc) | hc
                · exact hchk c hc
                · exact hbchk c hc
                · exact hachk c hc
            · right
              simp only [scrapeAllRun]
              rw [heq, hout]
              dsimp only
              rw [hbeq, hbout]
              dsimp only
              exact hacz
        · right
          simp only [scrapeAllRun]
          rw [heq, hout]
          dsimp only
          rw [hberr]
          rfl
    · right
      simp only [scrapeAllRun]
      rw [herr]
      rfl

/-- C4, amended: setting the cancellation flag never corrupts the run — it
resolves either to the cancelled result or to exactly the result of the
uncancelled run (in particular never to a thrown fault); and whenever the
uncancelled run still has a cancellation check at or after the flag's
fetch-count (i.e. a page or detail fetch still lies ahead of the setting
point), the run resolves to `{success: false, cancelled: true}`.  A flag
set after the run's last check (e.g. after its final detail fetch, see the
counterexample) leaves the run to resolve as if never cancelled. -/
theorem scrapeAll_cancellation_amended (env : ScrapeEnv) (opts : ScrapeOptions) (k : Nat) :
    ((scrapeAllRun env (some k) opts).2 = ScrapeResult.cancelled
      ∨ (scrapeAllRun env (some k) opts).2 = (scrapeAllRun env none opts).2)
    ∧ ((∃ c, Ev.check c ∈ (scrapeAllRun env none opts).1 ∧ k ≤ c) →
        (scrapeAllRun env (some k) opts).2 = ScrapeResult.cancelled) := by
  rcases scrapeAllRun_cancel_cases env opts k with ⟨heq, hchk⟩ | hcz
  · constructor
    · right
      rw [heq]
    · rintro ⟨c, hcm, hkc⟩
      have := hchk c hcm
      omega
  · exact ⟨Or.inl hcz, fun _ => hcz⟩

theorem scrapeAll_cancellation_amended_witness :
    (Ev.check 1 ∈ (scrapeAllRun envDetail none optsHistoryAll).1 ∧ (0:Nat) ≤ 1) ∧
    (scrapeAllRun envDetail (some 0) optsHistoryAll).2 = ScrapeResult.cancelled :=
  ⟨⟨by decide, by decide⟩,
    (scrapeAll_cancellation_amended envDetail optsHistoryAll 0).2 ⟨1, by decide, by decide⟩⟩

/-! ## C8 — progress reporting: amended properties -/

theorem natCast_div_nonneg (p tp : Nat) : (0:ℚ) ≤ (p:ℚ) / (tp:ℚ) :=
  div_nonneg (by positivity) (by positivity)

theorem natCast_div_le_one (p tp : Nat) (h : p ≤ tp) : (p:ℚ) / (tp:ℚ) ≤ 1 := by
  rcases Nat.eq_zero_or_pos tp with h0 | h0
  · subst h0
    simp
  · have htp : (0:ℚ) < tp := by exact_mod_cast h0
    rw [div_le_one htp]
    exact_mod_cast h

theorem natCast_div_mono (p q tp : Nat) (h : p ≤ q) : (p:ℚ) / (tp:ℚ) ≤ (q:ℚ) / (tp:ℚ) := by
  rcases Nat.eq_zero_or_pos tp with h0 | h0
  · subst h0
    simp
  · have htp : (0:ℚ) < tp := by exact_mod_cast h0
    exact (div_le_div_iff_of_pos_right htp).mpr (by exact_mod_cast h)

theorem historyPercent_mono (tp p q : Nat) (h : p ≤ q) :
    historyPercent tp p ≤ historyPercent tp q := by
  unfold historyPercent
  have := natCast_div_mono p q tp h
  linarith

theorem historyPercent_ge (tp p : Nat) : 5 ≤ historyPercent tp p := by
  unfold historyPercent
  have := natCast_div_nonneg p tp
  linarith

theorem historyPercent_le (tp p : Nat) (h : p ≤ tp) : historyPercent tp p ≤ 30 := by
  unfold historyPercent
  have := natCast_div_le_one p tp h
  linarith

theorem bookmarksPercent_mono (offset : ℚ) (tp p q : Nat) (h : p ≤ q) :
    bookmarksPercent offset tp p ≤ bookmarksPercent offset tp q := by
  unfold bookmarksPercent
  have := natCast_div_mono p q tp h
  linarith

theorem bookmarksPercent_le (offset : ℚ) (tp p : Nat) (h : p ≤ tp) :
    bookmarksPercent offset tp p ≤ offset + 12 := by
  unfold bookmarksPercent
  have := natCast_div_le_one p tp h
  linarith

/-- The per-item enrichment percent: `30 + (completed / total) * 60`. -/
theorem enrichPercent_mono (total c d : Nat) (h : c ≤ d) :
    (30:ℚ) + (((c:ℚ) / (total:ℚ)) * 60) ≤ 30 + (((d:ℚ) / (total:ℚ)) * 60) := by
  have := natCast_div_mono c d total h
  linarith

theorem enrichPercent_ge (total c : Nat) : (30:ℚ) ≤ 30 + (((c:ℚ) / (total:ℚ)) * 60) := by
  have := natCast_div_nonneg c total
  linarith

theorem enrichPercent_le (total c : Nat) (h : c ≤ total) :
    (30:ℚ) + (((c:ℚ) / (total:ℚ)) * 60) ≤ 90 := by
  have := natCast_div_le_one c total h
  linarith

/-- When every progress event of a trace has its phase in `phs`, filtering
by `phs` keeps every percent. -/
theorem phasePercents_eq_allPercents (phs : List String) : ∀ tr : List Ev,
    (∀ ph q, Ev.progress ph q ∈ tr → phs.contains ph = true) →
    phasePercents phs tr = allPercents tr := by
  intro tr
  induction tr with
  | nil => intro _; rfl
  | cons e rest ih =>
    intro h
    cases e with
    | progress ph q =>
      have hin := h ph q (List.mem_cons_self _ _)
      simp only [phasePercents, allPercents, List.filterMap_cons, hin, if_true]
      have := ih (fun ph' q' hm => h ph' q' (List.mem_cons_of_mem _ hm))
      simp only [phasePercents, allPercents] at this
      rw [this]
    | fetch =>
      simp only [phasePercents, allPercents, List.filterMap_cons]
      exact ih (fun ph' q' hm => h ph' q' (List.mem_cons_of_mem _ hm))
    | wait ms =>
      simp only [phasePercents, allPercents, List.filterMap_cons]
      exact ih (fun ph' q' hm => h ph' q' (List.mem_cons_of_mem _ hm))
    | check c =>
      simp only [phasePercents, allPercents, List.filterMap_cons]
      exact ih (fun ph' q' hm => h ph' q' (List.mem_cons_of_mem _ hm))

/-- When no progress event of a trace has its phase in `phs`, filtering by
`phs` keeps nothing. -/
theorem phasePercents_eq_nil (phs : List String) : ∀ tr : List Ev,
    (∀ ph q, Ev.progress ph q ∈ tr → phs.contains ph = false) →
    phasePercents phs tr = [] := by
  intro tr
  induction tr with
  | nil => intro _; rfl
  | cons e rest ih =>
    intro h
    cases e with
    | progress ph q =>
      have hout := h ph q (List.mem_cons_self _ _)
      simp only [phasePercents, List.filterMap_cons, hout, Bool.false_eq_true, if_false]
      exact ih (fun ph' q' hm => h ph' q' (List.mem_cons_of_mem _ hm))
    | fetch =>
      simp only [phasePercents, List.filterMap_cons]
      exact ih (fun ph' q' hm => h ph' q' (List.mem_cons_of_mem _ hm))
    | wait ms =>
      simp only [phasePercents, List.filterMap_cons]
      exact ih (fun ph' q' hm => h ph' q' (List.mem_cons_of_mem _ hm))
    | check c =>
      simp only [phasePercents, List.filterMap_cons]
      exact ih (fun ph' q' hm => h ph' q' (List.mem_cons_of_mem _ hm))

theorem phasePercents_append (phs : List String) (t1 t2 : List Ev) :
    phasePercents phs (t1 ++ t2) = phasePercents phs t1 ++ phasePercents phs t2 := by
  unfold phasePercents
  rw [List.filterMap_append]

/-- Every progress event of a `pagesLoop` trace carries the loop's phase. -/
theorem pagesLoop_progress_phase (fp : Nat → Option (List WorkItem)) (phase : String)
    (mk : Nat → ℚ) (cancelAt : Option Nat) : ∀ (remaining page fetches : Nat)
    (acc : List WorkItem) (ph : String) (q : ℚ),
    Ev.progress ph q ∈ (pagesLoop fp phase mk cancelAt remaining page fetches acc).trace →
    ph = phase := by
  intro remaining
  induction remaining with
  | zero =>
    intro page fetches acc ph q h
    simp [pagesLoop] at h
  | succ r ih =>
    intro page fetches acc ph q h
    unfold pagesLoop at h
    split at h
    · simp at h
    · split at h
      · simp at h
        exact h.1
      · simp only [List.mem_cons, List.mem_append] at h
        rcases h with h | h | h | h
        · cases h
        · cases h
          rfl
        · cases h
        · rcases h with h | h
          · split at h <;> simp at h
          · exact ih (page + 1) (fetches + 1) _ ph q h

/-- Every percent of a `pagesLoop` trace is `mk p` for some processed page
`p` in range. -/
theorem pagesLoop_percents_mem (fp : Nat → Option (List WorkItem)) (phase : String)
    (mk : Nat → ℚ) (cancelAt : Option Nat) : ∀ (remaining page fetches : Nat)
    (acc : List WorkItem) (q : ℚ),
    q ∈ allPercents (pagesLoop fp phase mk cancelAt remaining page fetches acc).trace →
    ∃ p, page ≤ p ∧ p < page + remaining ∧ q = mk p := by
  intro remaining
  induction remaining with
  | zero =>
    intro page fetches acc q h
    simp [pagesLoop, allPercents] at h
  | succ r ih =>
    intro page fetches acc q h
    unfold pagesLoop at h
    split at h
    · simp [allPercents] at h
    · split at h
      · simp [allPercents, List.filterMap_cons] at h
        exact ⟨page, Nat.le_refl _, by omega, h⟩
      · simp only [allPercents, List.filterMap_cons, List.filterMap_append] at h
        rw [List.mem_cons] at h
        rcases h with h | h
        · exact ⟨page, Nat.le_refl _, by omega, h⟩
        · rw [List.mem_append] at h
          rcases h with h | h
          · split at h <;> simp at h
          · obtain ⟨p, hp1, hp2, hp3⟩ := ih (page + 1) (fetches + 1) _ q h
            exact ⟨p, by omega, by omega, hp3⟩

theorem pagesLoop_percents_chain (fp : Nat → Option (List WorkItem)) (phase : String)
    (mk : Nat → ℚ) (cancelAt : Option Nat) (hmono : ∀ p q, p ≤ q → mk p ≤ mk q) :
    ∀ (remaining page fetches : Nat) (acc : List WorkItem),
    List.Chain' (fun a b : ℚ => a ≤ b)
      (allPercents (pagesLoop fp phase mk cancelAt remaining page fetches acc).trace) := by
  intro remaining
  induction remaining with
  | zero => intro page fetches acc; simp [pagesLoop, allPercents]
  | succ r ih =>
    intro page fetches acc
    unfold pagesLoop
    split
    · simp [allPercents]
    · split
      · simp [allPercents, List.filterMap_cons]
      · simp only [allPercents, List.filterMap_cons, List.filterMap_append]
        have hwaits : List.filterMap
            (fun e => match e with
              | Ev.progress _ q => some q
              | _ => none)
            (if 0 < r then [Ev.wait RATE_LIMIT_MS] else []) = [] := by
          split <;> rfl
        rw [hwaits, List.nil_append, List.chain'_cons']
        constructor
        · intro y hy
          have hmem := List.mem_of_mem_head? hy
          obtain ⟨p, hp1, _, rfl⟩ := pagesLoop_percents_mem fp phase mk cancelAt
            r (page + 1) (fetches + 1) _ y hmem
          exact hmono page p (by omega)
        · exact ih (page + 1) (fetches + 1) _

theorem enrichLoop_progress_phase (detail : String → Option WorkMeta)
    (cancelAt : Option Nat) (total : Nat) : ∀ (items : List WorkItem)
    (completed failedCount fetches : Nat) (acc : List WorkItem) (ph : String) (q : ℚ),
    Ev.progress ph q ∈
      (enrichLoop detail cancelAt total items completed failedCount fetches acc).trace →
    ph = "metadata" := by
  intro items
  induction items with
  | nil =>
    intro completed failedCount fetches acc ph q h
    simp [enrichLoop] at h
  | cons it rest ih =>
    intro completed failedCount fetches acc ph q h
    unfold enrichLoop at h
    split at h
    · simp at h
    · simp only [List.mem_cons, List.mem_append] at h
      rcases h with h | h | h | h
      · cases h
      · cases h
        rfl
      · cases h
      · rcases h with h | h
        · split at h <;> simp at h
        · exact ih (completed + 1) _ (fetches + 1) _ ph q h

theorem enrichLoop_percents_mem (detail : String → Option WorkMeta)
    (cancelAt : Option Nat) (total : Nat) : ∀ (items : List WorkItem)
    (completed failedCount fetches : Nat) (acc : List WorkItem) (q : ℚ),
    q ∈ allPercents
      (enrichLoop detail cancelAt total items completed failedCount fetches acc).trace →
    ∃ c, completed ≤ c ∧ c < completed + items.length
      ∧ q = 30 + (((c:ℚ) / (total:ℚ)) * 60) := by
  intro items
  induction items with
  | nil =>
    intro completed failedCount fetches acc q h
    simp [enrichLoop, allPercents] at h
  | cons it rest ih =>
    intro completed failedCount fetches acc q h
    unfold enrichLoop at h
    split at h
    · simp [allPercents] at h
    · simp only [allPercents, List.filterMap_cons, List.filterMap_append] at h
      rw [List.mem_cons] at h
      rcases h with h | h
      · exact ⟨completed, Nat.le_refl _, by simp, h⟩
      · rw [List.mem_append] at h
        rcases h with h | h
        · split at h <;> simp at h
        · obtain ⟨c, hc1, hc2, hc3⟩ := ih (completed + 1) _ (fetches + 1) _ q h
          exact ⟨c, by omega, by simp [List.length_cons]; omega, hc3⟩

theorem enrichLoop_percents_chain (detail : String → Option WorkMeta)
    (cancelAt : Option Nat) (total : Nat) : ∀ (items : List WorkItem)
    (completed failedCount fetches : Nat) (acc : List WorkItem),
    List.Chain' (fun a b : ℚ => a ≤ b)
      (allPercents
        (enrichLoop detail cancelAt total items completed failedCount fetches acc).trace) := by
  intro items
  induction items with
  | nil => intro completed failedCount fetches acc; simp [enrichLoop, allPercents]
  | cons it rest ih =>
    intro completed failedCount fetches acc
    unfold enrichLoop
    split
    · simp [allPercents]
    · simp only [allPercents, List.filterMap_cons, List.filterMap_append]
      have hwaits : List.filterMap
          (fun e => match e with
            | Ev.progress _ q => some q
            | _ => none)
          (if completed + 1 < total then [Ev.wait RATE_LIMIT_MS] else []) = [] := by
        split <;> rfl
      rw [hwaits, List.nil_append, List.chain'_cons']
      constructor
      · intro y hy
        have hmem := List.mem_of_mem_head? hy
        obtain ⟨c, hc1, _, rfl⟩ := enrichLoop_percents_mem detail cancelAt total
          rest (completed + 1) _ (fetches + 1) _ y hmem
        exact enrichPercent_mono total completed c (by omega)
      · exact ih (completed + 1) _ (fetches + 1) _

theorem historyRun_progress_phase (env : ScrapeEnv) (cancelAt : Option Nat)
    (opts : ScrapeOptions) (fetches : Nat) (ph : String) (q : ℚ)
    (h : Ev.progress ph q ∈ (scrapeReadingHistoryRun env cancelAt opts fetches).trace) :
    ph = "init" ∨ ph = "history" := by
  unfold scrapeReadingHistoryRun at h
  cases hhp : env.historyPages with
  | none =>
    rw [hhp] at h
    simp at h
    exact Or.inl h.1
  | some n =>
    rw [hhp] at h
    simp only [List.mem_cons] at h
    rcases h with h | h | h | h
    · cases h
      exact Or.inl rfl
    · cases h
    · cases h
      exact Or.inr rfl
    · exact Or.inr (pagesLoop_progress_phase env.historyPage "history" _ cancelAt
        _ 1 (fetches + 1) [] ph q h)

theorem historyRun_percents_chain (env : ScrapeEnv) (cancelAt : Option Nat)
    (opts : ScrapeOptions) (fetches : Nat) :
    List.Chain' (fun a b : ℚ => a ≤ b)
      (allPercents (scrapeReadingHistoryRun env cancelAt opts fetches).trace) := by
  unfold scrapeReadingHistoryRun
  cases hhp : env.historyPages with
  | none => simp [allPercents, List.filterMap_cons]
  | some n =>
    simp only [allPercents, List.filterMap_cons]
    rw [List.chain'_cons']
    constructor
    · intro y hy
      have hmem := List.mem_of_mem_head? hy
      rw [List.mem_cons] at hmem
      rcases hmem with hmem | hmem
      · subst hmem
        norm_num
      · obtain ⟨p, _, _, rfl⟩ := pagesLoop_percents_mem env.historyPage "history" _
          cancelAt _ 1 (fetches + 1) [] y hmem
        have := historyPercent_ge (clampPages opts (n.max 1)) p
        linarith
    · rw [List.chain'_cons']
      constructor
      · intro y hy
        have hmem := List.mem_of_mem_head? hy
        obtain ⟨p, _, _, rfl⟩ := pagesLoop_percents_mem env.historyPage "history" _
          cancelAt _ 1 (fetches + 1) [] y hmem
        exact historyPercent_ge (clampPages opts (n.max 1)) p
      · exact pagesLoop_percents_chain env.historyPage "history" _ cancelAt
          (historyPercent_mono (clampPages opts (n.max 1))) _ 1 (fetches + 1) []

theorem historyRun_percents_le (env : ScrapeEnv) (cancelAt : Option Nat)
    (opts : ScrapeOptions) (fetches : Nat) (q : ℚ)
    (h : q ∈ allPercents (scrapeReadingHistoryRun env cancelAt opts fetches).trace) :
    q ≤ 30 := by
  unfold scrapeReadingHistoryRun at h
  cases hhp : env.historyPages with
  | none =>
    rw [hhp] at h
    simp [allPercents, List.filterMap_cons] at h
    subst h
    norm_num
  | some n =>
    rw [hhp] at h
    simp only [allPercents, List.filterMap_cons] at h
    rw [List.mem_cons] at h
    rcases h with h | h
    · subst h
      norm_num
    · rw [List.mem_cons] at h
      rcases h with h | h
      · subst h
        norm_num
      · obtain ⟨p, hp1, hp2, rfl⟩ := pagesLoop_percents_mem env.historyPage "history" _
          cancelAt _ 1 (fetches + 1) [] q h
        exact historyPercent_le (clampPages opts (n.max 1)) p (by omega)

theorem bookmarksRun_progress_phase (env : ScrapeEnv) (cancelAt : Option Nat)
    (opts : ScrapeOptions) (offset : ℚ) (fetches : Nat) (ph : String) (q : ℚ)
    (h : Ev.progress ph q ∈ (scrapeBookmarksRun env cancelAt opts offset fetches).trace) :
    ph = "bookmarks" := by
  unfold scrapeBookmarksRun at h
  cases hbp : env.bookmarkPages with
  | none =>
    rw [hbp] at h
    simp at h
  | some n =>
    rw [hbp] at h
    simp only [List.mem_cons] at h
    rcases h with h | h | h
    · cases h
    · cases h
      rfl
    · exact pagesLoop_progress_phase env.bookmarkPage "bookmarks" _ cancelAt
        _ 1 (fetches + 1) [] ph q h

theorem bookmarksRun_percents_le (env : ScrapeEnv) (cancelAt : Option Nat)
    (opts : ScrapeOptions) (offset : ℚ) (fetches : Nat) (q : ℚ)
    (h : q ∈ allPercents (scrapeBookmarksRun env cancelAt opts offset fetches).trace) :
    q ≤ offset + 12 := by
  unfold scrapeBookmarksRun at h
  cases hbp : env.bookmarkPages with
  | none =>
    rw [hbp] at h
    simp [allPercents, List.filterMap_cons] at h
  | some n =>
    rw [hbp] at h
    simp only [allPercents, List.filterMap_cons] at h
    rw [List.mem_cons] at h
    rcases h with h | h
    · subst h
      norm_num
    · obtain ⟨p, hp1, hp2, rfl⟩ := pagesLoop_percents_mem env.bookmarkPage "bookmarks" _
        cancelAt _ 1 (fetches + 1) [] q h
      exact bookmarksPercent_le offset (clampPages opts (n.max 1)) p (by omega)

theorem afterListing_progress_phase (env : ScrapeEnv) (cancelAt : Option Nat)
    (allItems : List WorkItem) (fetches : Nat) (ph : String) (q : ℚ)
    (h : Ev.progress ph q ∈ (afterListing env cancelAt allItems fetches).1) :
    ph = "metadata" ∨ ph = "complete" := by
  unfold afterListing at h
  split at h
  · simp at h
  · unfold enrichWithMetadataRun at h
    dsimp only at h
    split at h
    · simp only [List.mem_cons] at h
      rcases h with h | h | h
      · cases h
        exact Or.inl rfl
      · cases h
      · exact Or.inl (enrichLoop_progress_phase env.detail cancelAt _ _ 0 0 fetches []
          ph q h)
    · simp only [List.mem_cons, List.mem_append] at h
      rcases h with h | h | h
      · cases h
        exact Or.inl rfl
      · cases h
      · rcases h with h | h
        · exact Or.inl (enrichLoop_progress_phase env.detail cancelAt _ _ 0 0 fetches []
            ph q h)
        · simp at h
          exact Or.inr h.1

theorem afterListing_percents_chain (env : ScrapeEnv) (cancelAt : Option Nat)
    (allItems : List WorkItem) (fetches : Nat) :
    List.Chain' (fun a b : ℚ => a ≤ b)
      (allPercents (afterListing env cancelAt allItems fetches).1) := by
  unfold afterListing
  split
  · simp [allPercents]
  · unfold enrichWithMetadataRun
    dsimp only
    split
    · simp only [allPercents, List.filterMap_cons]
      rw [List.chain'_cons']
      constructor
      · intro y hy
        have hmem := List.mem_of_mem_head? hy
        obtain ⟨c, _, _, rfl⟩ := enrichLoop_percents_mem env.detail cancelAt _
          allItems 0 0 fetches [] y hmem
        exact enrichPercent_ge _ c
      · exact enrichLoop_percents_chain env.detail cancelAt _ allItems 0 0 fetches []
    · simp only [allPercents, List.filterMap_cons, List.filterMap_append]
      rw [List.chain'_cons']
      constructor
      · intro y hy
        have hmem := List.mem_of_mem_head? hy
        rw [List.mem_append] at hmem
        rcases hmem with hmem | hmem
        · obtain ⟨c, _, _, rfl⟩ := enrichLoop_percents_mem env.detail cancelAt _
            allItems 0 0 fetches [] y hmem
          exact enrichPercent_ge _ c
        · simp at hmem
          subst hmem
          norm_num
      · rw [List.chain'_append]
        refine ⟨enrichLoop_percents_chain env.detail cancelAt _ allItems 0 0 fetches [],
          by simp, ?_⟩
        intro x hx y hy
        have hxm := List.mem_of_mem_getLast? hx
        obtain ⟨c, _, hc2, rfl⟩ := enrichLoop_percents_mem env.detail cancelAt _
          allItems 0 0 fetches [] x hxm
        simp only [List.head?_cons, Option.mem_def, Option.some_inj] at hy
        subst hy
        have := enrichPercent_le allItems.length c (by omega)
        linarith

theorem afterListing_percents_le (env : ScrapeEnv) (cancelAt : Option Nat)
    (allItems : List WorkItem) (fetches : Nat) (q : ℚ)
    (h : q ∈ allPercents (afterListing env cancelAt allItems fetches).1) :
    q ≤ 95 := by
  unfold afterListing at h
  split at h
  · simp [allPercents] at h
  · unfold enrichWithMetadataRun at h
    dsimp only at h
    split at h
    · simp only [allPercents, List.filterMap_cons] at h
      rw [List.mem_cons] at h
      rcases h with h | h
      · subst h
        norm_num
      · obtain ⟨c, _, hc2, rfl⟩ := enrichLoop_percents_mem env.detail cancelAt _
          allItems 0 0 fetches [] q h
        have := enrichPercent_le allItems.length c (by omega)
        linarith
    · simp only [allPercents, List.filterMap_cons, List.filterMap_append] at h
      rw [List.mem_cons] at h
      rcases h with h | h
      · subst h
        norm_num
      · rw [List.mem_append] at h
        rcases h with h | h
        · obtain ⟨c, _, hc2, rfl⟩ := enrichLoop_percents_mem env.detail cancelAt _
            allItems 0 0 fetches [] q h
          have := enrichPercent_le allItems.length c (by omega)
          linarith
        · simp at h
          subst h
          norm_num

theorem countPhase_append (phase : String) (t1 t2 : List Ev) :
    countPhase phase (t1 ++ t2) = countPhase phase t1 + countPhase phase t2 := by
  unfold countPhase
  rw [List.countP_append]

theorem countPhase_eq_zero (phase : String) (tr : List Ev)
    (h : ∀ ph q, Ev.progress ph q ∈ tr → ph ≠ phase) :
    countPhase phase tr = 0 := by
  unfold countPhase
  rw [List.countP_eq_zero]
  intro e he
  cases e with
  | progress p q =>
    have := h p q he
    simp [this]
  | fetch => simp
  | wait ms => simp
  | check c => simp

theorem allPercents_append (t1 t2 : List Ev) :
    allPercents (t1 ++ t2) = allPercents t1 ++ allPercents t2 := by
  unfold allPercents
  rw [List.filterMap_append]

theorem pagesLoop_none_ok (fp : Nat → Option (List WorkItem)) (phase : String)
    (mkPercent : Nat → ℚ) (hfp : ∀ p, (fp p).isSome) :
    ∀ (remaining page fetches : Nat) (acc : List WorkItem), ∃ res,
    (pagesLoop fp phase mkPercent none remaining page fetches acc).out = Except.ok res := by
  intro remaining
  induction remaining with
  | zero =>
    intro page fetches acc
    exact ⟨acc, rfl⟩
  | succ r ih =>
    intro page fetches acc
    have hs := hfp page
    cases hp : fp page with
    | none => rw [hp] at hs; cases hs
    | some items =>
      simp only [pagesLoop, cancelSet, Bool.false_eq_true, if_false, hp]
      exact ih (page + 1) (fetches + 1) (acc ++ items)

theorem pagesLoop_countPhase_self (fp : Nat → Option (List WorkItem)) (phase : String)
    (mkPercent : Nat → ℚ) (hfp : ∀ p, (fp p).isSome) :
    ∀ (remaining page fetches : Nat) (acc : List WorkItem),
    countPhase phase (pagesLoop fp phase mkPercent none remaining page fetches acc).trace
      = remaining := by
  intro remaining
  induction remaining with
  | zero =>
    intro page fetches acc
    rfl
  | succ r ih =>
    intro page fetches acc
    have hs := hfp page
    cases hp : fp page with
    | none => rw [hp] at hs; cases hs
    | some items =>
      simp only [pagesLoop, cancelSet, Bool.false_eq_true, if_false, hp]
      have hrest := ih (page + 1) (fetches + 1) (acc ++ items)
      simp only [countPhase, List.countP_cons, List.countP_append] at hrest ⊢
      split <;> simp [hrest]

theorem enrichLoop_countPhase (detail : String → Option WorkMeta) (total : Nat) :
    ∀ (items : List WorkItem) (completed failedCount fetches : Nat) (acc : List WorkItem),
    countPhase "metadata"
      (enrichLoop detail none total items completed failedCount fetches acc).trace
      = items.length := by
  intro items
  induction items with
  | nil =>
    intro completed failedCount fetches acc
    rfl
  | cons it rest ih =>
    intro completed failedCount fetches acc
    simp only [enrichLoop, cancelSet, Bool.false_eq_true, if_false]
    have hrest := ih (completed + 1)
      (match detail it.workId with | some _ => failedCount | none => failedCount + 1)
      (fetches + 1)
      (acc ++ [match detail it.workId with | some md => assignMeta it md | none => it])
    simp only [countPhase, List.countP_cons, List.countP_append] at hrest ⊢
    split <;> simp [hrest, List.length_cons]

theorem historyRun_none_ok (env : ScrapeEnv) (opts : ScrapeOptions) (fetches n : Nat)
    (hn : env.historyPages = some n) (hfp : ∀ p, (env.historyPage p).isSome) :
    ∃ res, (scrapeReadingHistoryRun env none opts fetches).out = Except.ok res := by
  unfold scrapeReadingHistoryRun
  rw [hn]
  dsimp only
  obtain ⟨res, hres⟩ := pagesLoop_none_ok env.historyPage "history"
    (historyPercent (clampPages opts (n.max 1))) hfp (clampPages opts (n.max 1)) 1
    (fetches + 1) []
  rw [hres]
  exact ⟨yearFilter env opts res, rfl⟩

theorem historyRun_countPhase (env : ScrapeEnv) (opts : ScrapeOptions) (fetches n : Nat)
    (hn : env.historyPages = some n) (hfp : ∀ p, (env.historyPage p).isSome) :
    countPhase "history" (scrapeReadingHistoryRun env none opts fetches).trace
      = clampPages opts (n.max 1) + 1 := by
  unfold scrapeReadingHistoryRun
  rw [hn]
  dsimp only
  have hloop := pagesLoop_countPhase_self env.historyPage "history"
    (historyPercent (clampPages opts (n.max 1))) hfp (clampPages opts (n.max 1)) 1
    (fetches + 1) []
  simp only [countPhase, List.countP_cons] at hloop ⊢
  simp [hloop]

theorem bookmarksRun_none_ok (env : ScrapeEnv) (opts : ScrapeOptions) (offset : ℚ)
    (fetches n : Nat) (hn : env.bookmarkPages = some n)
    (hfp : ∀ p, (env.bookmarkPage p).isSome) :
    ∃ res, (scrapeBookmarksRun env none opts offset fetches).out = Except.ok res := by
  unfold scrapeBookmarksRun
  rw [hn]
  dsimp only
  obtain ⟨res, hres⟩ := pagesLoop_none_ok env.bookmarkPage "bookmarks"
    (bookmarksPercent offset (clampPages opts (n.max 1))) hfp (clampPages opts (n.max 1)) 1
    (fetches + 1) []
  rw [hres]
  exact ⟨yearFilter env opts res, rfl⟩

theorem bookmarksRun_countPhase (env : ScrapeEnv) (opts : ScrapeOptions) (offset : ℚ)
    (fetches n : Nat) (hn : env.bookmarkPages = some n)
    (hfp : ∀ p, (env.bookmarkPage p).isSome) :
    countPhase "bookmarks" (scrapeBookmarksRun env none opts offset fetches).trace
      = clampPages opts (n.max 1) + 1 := by
  unfold scrapeBookmarksRun
  rw [hn]
  dsimp only
  have hloop := pagesLoop_countPhase_self env.bookmarkPage "bookmarks"
    (bookmarksPercent offset (clampPages opts (n.max 1))) hfp (clampPages opts (n.max 1)) 1
    (fetches + 1) []
  simp only [countPhase, List.countP_cons] at hloop ⊢
  simp [hloop]

theorem afterListing_success_countPhase (env : ScrapeEnv) (allItems : List WorkItem)
    (fetches : Nat) (items : List WorkItem) (failed : Nat)
    (hs : (afterListing env none allItems fetches).2 = ScrapeResult.success items failed)
    (hne : items ≠ []) :
    countPhase "metadata" (afterListing env none allItems fetches).1 = items.length + 1
    ∧ countPhase "complete" (afterListing env none allItems fetches).1 = 1 := by
  unfold afterListing at hs ⊢
  by_cases hA : allItems.isEmpty
  · rw [if_pos hA] at hs
    cases hs
    cases hne rfl
  · rw [if_neg hA] at hs ⊢
    unfold enrichWithMetadataRun at hs ⊢
    dsimp only at hs ⊢
    rw [enrichLoop_none_ok] at hs ⊢
    dsimp only at hs ⊢
    cases hs
    constructor
    · have := enrichLoop_countPhase env.detail allItems.length allItems 0 0 fetches []
      simp only [countPhase, List.countP_cons, List.countP_append] at this ⊢
      simp [this]
    · have h0 : countPhase "complete"
          (enrichLoop env.detail none allItems.length allItems 0 0 fetches []).trace = 0 :=
        countPhase_eq_zero "complete" _ (fun ph q hm => by
          have := enrichLoop_progress_phase env.detail none allItems.length allItems
            0 0 fetches [] ph q hm
          subst this
          decide)
      simp only [countPhase, List.countP_cons, List.countP_append] at h0 ⊢
      simp [h0]

theorem countPhase_wait_cons (phase : String) (ms : Nat) (tr : List Ev) :
    countPhase phase (Ev.wait ms :: tr) = countPhase phase tr := by
  simp [countPhase]

theorem phasePercents_wait_cons (phs : List String) (ms : Nat) (tr : List Ev) :
    phasePercents phs (Ev.wait ms :: tr) = phasePercents phs tr := rfl

theorem allPercents_wait_cons (ms : Nat) (tr : List Ev) :
    allPercents (Ev.wait ms :: tr) = allPercents tr := rfl

theorem historyRun_count_other (env : ScrapeEnv) (cancelAt : Option Nat)
    (opts : ScrapeOptions) (fetches : Nat) (phase : String)
    (h1 : "init" ≠ phase) (h2 : "history" ≠ phase) :
    countPhase phase (scrapeReadingHistoryRun env cancelAt opts fetches).trace = 0 :=
  countPhase_eq_zero _ _ (fun ph q hm => by
    rcases historyRun_progress_phase env cancelAt opts fetches ph q hm with h | h <;> subst h
    · exact h1
    · exact h2)

theorem bookmarksRun_count_other (env : ScrapeEnv) (cancelAt : Option Nat)
    (opts : ScrapeOptions) (offset : ℚ) (fetches : Nat) (phase : String)
    (h1 : "bookmarks" ≠ phase) :
    countPhase phase (scrapeBookmarksRun env cancelAt opts offset fetches).trace = 0 :=
  countPhase_eq_zero _ _ (fun ph q hm => by
    have h := bookmarksRun_progress_phase env cancelAt opts offset fetches ph q hm
    subst h
    exact h1)

theorem afterListing_count_other (env : ScrapeEnv) (cancelAt : Option Nat)
    (allItems : List WorkItem) (fetches : Nat) (phase : String)
    (h1 : "metadata" ≠ phase) (h2 : "complete" ≠ phase) :
    countPhase phase (afterListing env cancelAt allItems fetches).1 = 0 :=
  countPhase_eq_zero _ _ (fun ph q hm => by
    rcases afterListing_progress_phase env cancelAt allItems fetches ph q hm with h | h <;>
      subst h
    · exact h1
    · exact h2)

theorem historyRun_pp_listing (env : ScrapeEnv) (cancelAt : Option Nat)
    (opts : ScrapeOptions) (fetches : Nat) :
    phasePercents ["init", "history"]
        (scrapeReadingHistoryRun env cancelAt opts fetches).trace
      = allPercents (scrapeReadingHistoryRun env cancelAt opts fetches).trace :=
  phasePercents_eq_allPercents _ _ (fun ph q hm => by
    rcases historyRun_progress_phase env cancelAt opts fetches ph q hm with h | h <;>
      subst h <;> decide)

theorem historyRun_pp_enrich (env : ScrapeEnv) (cancelAt : Option Nat)
    (opts : ScrapeOptions) (fetches : Nat) :
    phasePercents ["metadata", "complete"]
        (scrapeReadingHistoryRun env cancelAt opts fetches).trace = [] :=
  phasePercents_eq_nil _ _ (fun ph q hm => by
    rcases historyRun_progress_phase env cancelAt opts fetches ph q hm with h | h <;>
      subst h <;> decide)

theorem bookmarksRun_pp_listing (env : ScrapeEnv) (cancelAt : Option Nat)
    (opts : ScrapeOptions) (offset : ℚ) (fetches : Nat) :
    phasePercents ["init", "history"]
        (scrapeBookmarksRun env cancelAt opts offset fetches).trace = [] :=
  phasePercents_eq_nil _ _ (fun ph q hm => by
    have h := bookmarksRun_progress_phase env cancelAt opts offset fetches ph q hm
    subst h
    decide)

theorem bookmarksRun_pp_enrich (env : ScrapeEnv) (cancelAt : Option Nat)
    (opts : ScrapeOptions) (offset : ℚ) (fetches : Nat) :
    phasePercents ["metadata", "complete"]
        (scrapeBookmarksRun env cancelAt opts offset fetches).trace = [] :=
  phasePercents_eq_nil _ _ (fun ph q hm => by
    have h := bookmarksRun_progress_phase env cancelAt opts offset fetches ph q hm
    subst h
    decide)

theorem afterListing_pp_listing (env : ScrapeEnv) (cancelAt : Option Nat)
    (allItems : List WorkItem) (fetches : Nat) :
    phasePercents ["init", "history"]
        (afterListing env cancelAt allItems fetches).1 = [] :=
  phasePercents_eq_nil _ _ (fun ph q hm => by
    rcases afterListing_progress_phase env cancelAt allItems fetches ph q hm with h | h <;>
      subst h <;> decide)

theorem afterListing_pp_enrich (env : ScrapeEnv) (cancelAt : Option Nat)
    (allItems : List WorkItem) (fetches : Nat) :
    phasePercents ["metadata", "complete"]
        (afterListing env cancelAt allItems fetches).1
      = allPercents (afterListing env cancelAt allItems fetches).1 :=
  phasePercents_eq_allPercents _ _ (fun ph q hm => by
    rcases afterListing_progress_phase env cancelAt allItems fetches ph q hm with h | h <;>
      subst h <;> decide)

theorem scrapeAllRun_percents_le (env : ScrapeEnv) (cancelAt : Option Nat)
    (opts : ScrapeOptions) (q : ℚ)
    (h : q ∈ allPercents (scrapeAllRun env cancelAt opts).1) : q ≤ 95 := by
  obtain ⟨src, tr, pl⟩ := opts
  cases src with
  | history =>
    simp only [scrapeAllRun] at h
    cases hout : (scrapeReadingHistoryRun env cancelAt ⟨ScrapeSource.history, tr, pl⟩ 0).out with
    | error e =>
      rw [hout] at h
      dsimp only at h
      have := historyRun_percents_le env cancelAt ⟨ScrapeSource.history, tr, pl⟩ 0 q h
      linarith
    | ok itemsH =>
      rw [hout] at h
      dsimp only at h
      rw [allPercents_append, List.mem_append] at h
      rcases h with h | h
      · have := historyRun_percents_le env cancelAt ⟨ScrapeSource.history, tr, pl⟩ 0 q h
        linarith
      · exact afterListing_percents_le env cancelAt itemsH _ q h
  | bookmarks =>
    simp only [scrapeAllRun] at h
    cases hout : (scrapeBookmarksRun env cancelAt ⟨ScrapeSource.bookmarks, tr, pl⟩ 0 0).out with
    | error e =>
      rw [hout] at h
      dsimp only at h
      have := bookmarksRun_percents_le env cancelAt ⟨ScrapeSource.bookmarks, tr, pl⟩ 0 0 q h
      linarith
    | ok itemsB =>
      rw [hout] at h
      dsimp only at h
      rw [allPercents_append, List.mem_append] at h
      rcases h with h | h
      · have := bookmarksRun_percents_le env cancelAt ⟨ScrapeSource.bookmarks, tr, pl⟩ 0 0 q h
        linarith
      · exact afterListing_percents_le env cancelAt itemsB _ q h
  | both =>
    simp only [scrapeAllRun] at h
    cases hout : (scrapeReadingHistoryRun env cancelAt ⟨ScrapeSource.both, tr, pl⟩ 0).out with
    | error e =>
      rw [hout] at h
      dsimp only at h
      have := historyRun_percents_le env cancelAt ⟨ScrapeSource.both, tr, pl⟩ 0 q h
      linarith
    | ok itemsH =>
      rw [hout] at h
      dsimp only at h
      cases hbout : (scrapeBookmarksRun env cancelAt ⟨ScrapeSource.both, tr, pl⟩ 30
          (scrapeReadingHistoryRun env cancelAt ⟨ScrapeSource.both, tr, pl⟩ 0).fetches).out with
      | error e =>
        rw [hbout] at h
        dsimp only at h
        rw [allPercents_append, allPercents_wait_cons, List.mem_append] at h
        rcases h with h | h
        · have := historyRun_percents_le env cancelAt ⟨ScrapeSource.both, tr, pl⟩ 0 q h
          linarith
        · have := bookmarksRun_percents_le env cancelAt ⟨ScrapeSource.both, tr, pl⟩ 30 _ q h
          linarith
      | ok itemsB =>
        rw [hbout] at h
        dsimp only at h
        rw [allPercents_append, allPercents_append, allPercents_wait_cons,
          List.mem_append, List.mem_append] at h
        rcases h with (h | h) | h
        · have := historyRun_percents_le env cancelAt ⟨ScrapeSource.both, tr, pl⟩ 0 q h
          linarith
        · have := bookmarksRun_percents_le env cancelAt ⟨ScrapeSource.both, tr, pl⟩ 30 _ q h
          linarith
        · exact afterListing_percents_le env cancelAt _ _ q h

theorem scrapeAllRun_listing_chain (env : ScrapeEnv) (cancelAt : Option Nat)
    (opts : ScrapeOptions) :
    List.Chain' (fun a b : ℚ => a ≤ b)
      (phasePercents ["init", "history"] (scrapeAllRun env cancelAt opts).1) := by
  obtain ⟨src, tr, pl⟩ := opts
  cases src with
  | history =>
    simp only [scrapeAllRun]
    cases hout : (scrapeReadingHistoryRun env cancelAt ⟨ScrapeSource.history, tr, pl⟩ 0).out with
    | error e =>
      dsimp only
      rw [historyRun_pp_listing]
      exact historyRun_percents_chain env cancelAt ⟨ScrapeSource.history, tr, pl⟩ 0
    | ok itemsH =>
      dsimp only
      rw [phasePercents_append, historyRun_pp_listing, afterListing_pp_listing,
        List.append_nil]
      exact historyRun_percents_chain env cancelAt ⟨ScrapeSource.history, tr, pl⟩ 0
  | bookmarks =>
    simp only [scrapeAllRun]
    cases hout : (scrapeBookmarksRun env cancelAt ⟨ScrapeSource.bookmarks, tr, pl⟩ 0 0).out with
    | error e =>
      dsimp only
      rw [bookmarksRun_pp_listing]
      exact List.chain'_nil
    | ok itemsB =>
      dsimp only
      rw [phasePercents_append, bookmarksRun_pp_listing, afterListing_pp_listing]
      exact List.chain'_nil
  | both =>
    simp only [scrapeAllRun]
    cases hout : (scrapeReadingHistoryRun env cancelAt ⟨ScrapeSource.both, tr, pl⟩ 0).out with
    | error e =>
      dsimp only
      rw [historyRun_pp_listing]
      exact historyRun_percents_chain env cancelAt ⟨ScrapeSource.both, tr, pl⟩ 0
    | ok itemsH =>
      dsimp only
      cases hbout : (scrapeBookmarksRun env cancelAt ⟨ScrapeSource.both, tr, pl⟩ 30
          (scrapeReadingHistoryRun env cancelAt ⟨ScrapeSource.both, tr, pl⟩ 0).fetches).out with
      | error e =>
        dsimp only
        rw [phasePercents_append, phasePercents_wait_cons, historyRun_pp_listing,
          bookmarksRun_pp_listing, List.append_nil]
        exact historyRun_percents_chain env cancelAt ⟨ScrapeSource.both, tr, pl⟩ 0
      | ok itemsB =>
        dsimp only
        rw [phasePercents_append, phasePercents_append, phasePercents_wait_cons,
          historyRun_pp_listing, bookmarksRun_pp_listing, afterListing_pp_listing,
          List.append_nil, List.append_nil]
        exact historyRun_percents_chain env cancelAt ⟨ScrapeSource.both, tr, pl⟩ 0

theorem scrapeAllRun_enrich_chain (env : ScrapeEnv) (cancelAt : Option Nat)
    (opts : ScrapeOptions) :
    List.Chain' (fun a b : ℚ => a ≤ b)
      (phasePercents ["metadata", "complete"] (scrapeAllRun env cancelAt opts).1) := by
  obtain ⟨src, tr, pl⟩ := opts
  cases src with
  | history =>
    simp only [scrapeAllRun]
    cases hout : (scrapeReadingHistoryRun env cancelAt ⟨ScrapeSource.history, tr, pl⟩ 0).out with
    | error e =>
      dsimp only
      rw [historyRun_pp_enrich]
      exact List.chain'_nil
    | ok itemsH =>
      dsimp only
      rw [phasePercents_append, historyRun_pp_enrich, afterListing_pp_enrich,
        List.nil_append]
      exact afterListing_percents_chain env cancelAt itemsH _
  | bookmarks =>
    simp only [scrapeAllRun]
    cases hout : (scrapeBookmarksRun env cancelAt ⟨ScrapeSource.bookmarks, tr, pl⟩ 0 0).out with
    | error e =>
      dsimp only
      rw [bookmarksRun_pp_enrich]
      exact List.chain'_nil
    | ok itemsB =>
      dsimp only
      rw [phasePercents_append, bookmarksRun_pp_enrich, afterListing_pp_enrich,
        List.nil_append]
      exact afterListing_percents_chain env cancelAt itemsB _
  | both =>
    simp only [scrapeAllRun]
    cases hout : (scrapeReadingHistoryRun env cancelAt ⟨ScrapeSource.both, tr, pl⟩ 0).out with
    | error e =>
      dsimp only
      rw [historyRun_pp_enrich]
      exact List.chain'_nil
    | ok itemsH =>
      dsimp only
      cases hbout : (scrapeBookmarksRun env cancelAt ⟨ScrapeSource.both, tr, pl⟩ 30
          (scrapeReadingHistoryRun env cancelAt ⟨ScrapeSource.both, tr, pl⟩ 0).fetches).out with
      | error e =>
        dsimp only
        rw [phasePercents_append, phasePercents_wait_cons, historyRun_pp_enrich,
          bookmarksRun_pp_enrich]
        exact List.chain'_nil
      | ok itemsB =>
        dsimp only
        rw [phasePercents_append, phasePercents_append, phasePercents_wait_cons,
          historyRun_pp_enrich, bookmarksRun_pp_enrich, afterListing_pp_enrich,
          List.nil_append, List.nil_append]
        exact afterListing_percents_chain env cancelAt _ _

theorem scrapeAllRun_count_history (env : ScrapeEnv) (opts : ScrapeOptions) (n : Nat)
    (hsrc : opts.source ≠ ScrapeSource.bookmarks)
    (hn : env.historyPages = some n) (hfp : ∀ p, (env.historyPage p).isSome) :
    countPhase "history" (scrapeAllRun env none opts).1
      = clampPages opts (n.max 1) + 1 := by
  obtain ⟨src, tr, pl⟩ := opts
  cases src with
  | bookmarks => exact absurd rfl hsrc
  | history =>
    obtain ⟨itemsH, hout⟩ := historyRun_none_ok env ⟨ScrapeSource.history, tr, pl⟩ 0 n hn hfp
    simp only [scrapeAllRun]
    rw [hout]
    dsimp only
    rw [countPhase_append,
      historyRun_countPhase env ⟨ScrapeSource.history, tr, pl⟩ 0 n hn hfp,
      afterListing_count_other env none itemsH _ "history" (by decide) (by decide)]
  | both =>
    obtain ⟨itemsH, hout⟩ := historyRun_none_ok env ⟨ScrapeSource.both, tr, pl⟩ 0 n hn hfp
    simp only [scrapeAllRun]
    rw [hout]
    dsimp only
    cases hbout : (scrapeBookmarksRun env none ⟨ScrapeSource.both, tr, pl⟩ 30
        (scrapeReadingHistoryRun env none ⟨ScrapeSource.both, tr, pl⟩ 0).fetches).out with
    | error e =>
      dsimp only
      rw [countPhase_append, countPhase_wait_cons,
        historyRun_countPhase env ⟨ScrapeSource.both, tr, pl⟩ 0 n hn hfp,
        bookmarksRun_count_other env none ⟨ScrapeSource.both, tr, pl⟩ 30 _ "history"
          (by decide)]
    | ok itemsB =>
      dsimp only
      rw [countPhase_append, countPhase_append, countPhase_wait_cons,
        historyRun_countPhase env ⟨ScrapeSource.both, tr, pl⟩ 0 n hn hfp,
        bookmarksRun_count_other env none ⟨ScrapeSource.both, tr, pl⟩ 30 _ "history"
          (by decide),
        afterListing_count_other env none _ _ "history" (by decide) (by decide)]

theorem scrapeAllRun_count_bookmarks (env : ScrapeEnv) (opts : ScrapeOptions) (n : Nat)
    (hsrc : opts.source = ScrapeSource.bookmarks)
    (hn : env.bookmarkPages = some n) (hfp : ∀ p, (env.bookmarkPage p).isSome) :
    countPhase "bookmarks" (scrapeAllRun env none opts).1
      = clampPages opts (n.max 1) + 1 := by
  obtain ⟨src, tr, pl⟩ := opts
  cases src with
  | history => exact ScrapeSource.noConfusion hsrc
  | both => exact ScrapeSource.noConfusion hsrc
  | bookmarks =>
    obtain ⟨itemsB, hout⟩ := bookmarksRun_none_ok env ⟨ScrapeSource.bookmarks, tr, pl⟩ 0 0
      n hn hfp
    simp only [scrapeAllRun]
    rw [hout]
    dsimp only
    rw [countPhase_append,
      bookmarksRun_countPhase env ⟨ScrapeSource.bookmarks, tr, pl⟩ 0 0 n hn hfp,
      afterListing_count_other env none itemsB _ "bookmarks" (by decide) (by decide)]

theorem scrapeAllRun_count_both_bookmarks (env : ScrapeEnv) (opts : ScrapeOptions)
    (nB : Nat) (hsrc : opts.source = ScrapeSource.both)
    (hnH : ∃ nH, env.historyPages = some nH) (hfpH : ∀ p, (env.historyPage p).isSome)
    (hnB : env.bookmarkPages = some nB) (hfpB : ∀ p, (env.bookmarkPage p).isSome) :
    countPhase "bookmarks" (scrapeAllRun env none opts).1
      = clampPages opts (nB.max 1) + 1 := by
  obtain ⟨src, tr, pl⟩ := opts
  cases src with
  | history => exact ScrapeSource.noConfusion hsrc
  | bookmarks => exact ScrapeSource.noConfusion hsrc
  | both =>
    obtain ⟨nH, hnH⟩ := hnH
    obtain ⟨itemsH, hout⟩ := historyRun_none_ok env ⟨ScrapeSource.both, tr, pl⟩ 0 nH hnH hfpH
    obtain ⟨itemsB, hbout⟩ := bookmarksRun_none_ok env ⟨ScrapeSource.both, tr, pl⟩ 30
      (scrapeReadingHistoryRun env none ⟨ScrapeSource.both, tr, pl⟩ 0).fetches nB hnB hfpB
    simp only [scrapeAllRun]
    rw [hout]
    dsimp only
    rw [hbout]
    dsimp only
    rw [countPhase_append, countPhase_append, countPhase_wait_cons,
      historyRun_count_other env none ⟨ScrapeSource.both, tr, pl⟩ 0 "bookmarks"
        (by decide) (by decide),
      bookmarksRun_countPhase env ⟨ScrapeSource.both, tr, pl⟩ 30 _ nB hnB hfpB,
      afterListing_count_other env none _ _ "bookmarks" (by decide) (by decide)]
    omega

theorem scrapeAllRun_count_enrich (env : ScrapeEnv) (opts : ScrapeOptions)
    (items : List WorkItem) (failed : Nat)
    (hs : (scrapeAllRun env none opts).2 = ScrapeResult.success items failed)
    (hne : items ≠ []) :
    countPhase "metadata" (scrapeAllRun env none opts).1 = items.length + 1
    ∧ countPhase "complete" (scrapeAllRun env none opts).1 = 1 := by
  obtain ⟨src, tr, pl⟩ := opts
  cases src with
  | history =>
    simp only [scrapeAllRun] at hs ⊢
    cases hout : (scrapeReadingHistoryRun env none ⟨ScrapeSource.history, tr, pl⟩ 0).out with
    | error e =>
      rw [hout] at hs
      dsimp only at hs
      cases e <;> exact ScrapeResult.noConfusion hs
    | ok itemsH =>
      rw [hout] at hs
      dsimp only at hs ⊢
      obtain ⟨h1, h2⟩ := afterListing_success_countPhase env itemsH _ items failed hs hne
      rw [countPhase_append, countPhase_append,
        historyRun_count_other env none ⟨ScrapeSource.history, tr, pl⟩ 0 "metadata"
          (by decide) (by decide),
        historyRun_count_other env none ⟨ScrapeSource.history, tr, pl⟩ 0 "complete"
          (by decide) (by decide), h1, h2]
      omega
  | bookmarks =>
    simp only [scrapeAllRun] at hs ⊢
    cases hout : (scrapeBookmarksRun env none ⟨ScrapeSource.bookmarks, tr, pl⟩ 0 0).out with
    | error e =>
      rw [hout] at hs
      dsimp only at hs
      cases e <;> exact ScrapeResult.noConfusion hs
    | ok itemsB =>
      rw [hout] at hs
      dsimp only at hs ⊢
      obtain ⟨h1, h2⟩ := afterListing_success_countPhase env itemsB _ items failed hs hne
      rw [countPhase_append, countPhase_append,
        bookmarksRun_count_other env none ⟨ScrapeSource.bookmarks, tr, pl⟩ 0 0 "metadata"
          (by decide),
        bookmarksRun_count_other env none ⟨ScrapeSource.bookmarks, tr, pl⟩ 0 0 "complete"
          (by decide), h1, h2]
      omega
  | both =>
    simp only [scrapeAllRun] at hs ⊢
    cases hout : (scrapeReadingHistoryRun env none ⟨ScrapeSource.both, tr, pl⟩ 0).out with
    | error e =>
      rw [hout] at hs
      dsimp only at hs
      cases e <;> exact ScrapeResult.noConfusion hs
    | ok itemsH =>
      rw [hout] at hs
      dsimp only at hs ⊢
      cases hbout : (scrapeBookmarksRun env none ⟨ScrapeSource.both, tr, pl⟩ 30
          (scrapeReadingHistoryRun env none ⟨ScrapeSource.both, tr, pl⟩ 0).fetches).out with
      | error e =>
        rw [hbout] at hs
        dsimp only at hs
        cases e <;> exact ScrapeResult.noConfusion hs
      | ok itemsB =>
        rw [hbout] at hs
        dsimp only at hs ⊢
        obtain ⟨h1, h2⟩ := afterListing_success_countPhase env (mergeItems itemsH itemsB) _
          items failed hs hne
        constructor
        · rw [countPhase_append, countPhase_append, countPhase_wait_cons,
            historyRun_count_other env none ⟨ScrapeSource.both, tr, pl⟩ 0 "metadata"
              (by decide) (by decide),
            bookmarksRun_count_other env none ⟨ScrapeSource.both, tr, pl⟩ 30 _ "metadata"
              (by decide), h1]
          omega
        · rw [countPhase_append, countPhase_append, countPhase_wait_cons,
            historyRun_count_other env none ⟨ScrapeSource.both, tr, pl⟩ 0 "complete"
              (by decide) (by decide),
            bookmarksRun_count_other env none ⟨ScrapeSource.both, tr, pl⟩ 30 _ "complete"
              (by decide), h2]

/-! ## C8 — progress monotonicity: amended part -/

/-- C8 (amended): within every run of `scrapeAll` — cancelled or not — the
emitted progress percents are monotonically non-decreasing within the
init/history phases and within the metadata/complete phases, and every
emitted percent is at most 95, so a percent of 100 is never emitted, on
success or otherwise; on an uncancelled run whose listing fetches succeed,
the trace carries one history progress event per history listing page plus
the "found" event, one bookmarks progress event per bookmark listing page
plus the "found" event, and — whenever the run resolves to a success with a
non-empty item list — one metadata progress event per enriched item plus
the kickoff event, and exactly one complete event. Full-run monotonicity
fails: the percent drops back to 30 when the metadata phase starts. -/
theorem scrapeAll_progress_amended (env : ScrapeEnv) (cancelAt : Option Nat)
    (opts : ScrapeOptions) :
    (∀ q ∈ allPercents (scrapeAllRun env cancelAt opts).1, q ≤ 95)
    ∧ List.Chain' (fun a b : ℚ => a ≤ b)
        (phasePercents ["init", "history"] (scrapeAllRun env cancelAt opts).1)
    ∧ List.Chain' (fun a b : ℚ => a ≤ b)
        (phasePercents ["metadata", "complete"] (scrapeAllRun env cancelAt opts).1)
    ∧ (opts.source ≠ ScrapeSource.bookmarks →
        ∀ n, env.historyPages = some n → (∀ p, (env.historyPage p).isSome) →
        countPhase "history" (scrapeAllRun env none opts).1
          = clampPages opts (n.max 1) + 1)
    ∧ (opts.source = ScrapeSource.bookmarks →
        ∀ n, env.bookmarkPages = some n → (∀ p, (env.bookmarkPage p).isSome) →
        countPhase "bookmarks" (scrapeAllRun env none opts).1
          = clampPages opts (n.max 1) + 1)
    ∧ (opts.source = ScrapeSource.both →
        ∀ nH nB, env.historyPages = some nH → env.bookmarkPages = some nB →
        (∀ p, (env.historyPage p).isSome) → (∀ p, (env.bookmarkPage p).isSome) →
        countPhase "bookmarks" (scrapeAllRun env none opts).1
          = clampPages opts (nB.max 1) + 1)
    ∧ (∀ items failed,
        (scrapeAllRun env none opts).2 = ScrapeResult.success items failed →
        items ≠ [] →
        countPhase "metadata" (scrapeAllRun env none opts).1 = items.length + 1
        ∧ countPhase "complete" (scrapeAllRun env none opts).1 = 1) :=
  ⟨fun q hq => scrapeAllRun_percents_le env cancelAt opts q hq,
   scrapeAllRun_listing_chain env cancelAt opts,
   scrapeAllRun_enrich_chain env cancelAt opts,
   fun hsrc n hn hfp => scrapeAllRun_count_history env opts n hsrc hn hfp,
   fun hsrc n hn hfp => scrapeAllRun_count_bookmarks env opts n hsrc hn hfp,
   fun hsrc nH nB hnH hnB hfpH hfpB =>
     scrapeAllRun_count_both_bookmarks env opts nB hsrc ⟨nH, hnH⟩ hfpH hnB hfpB,
   fun items failed hs hne => scrapeAllRun_count_enrich env opts items failed hs hne⟩

theorem scrapeAll_progress_amended_witness :
    countPhase "history" (scrapeAllRun envDetail none optsBothAll).1 = 2
    ∧ countPhase "bookmarks" (scrapeAllRun envDetail none optsBothAll).1 = 2 := by
  have h := scrapeAll_progress_amended envDetail none optsBothAll
  refine ⟨?_, ?_⟩
  · have hc := h.2.2.2.1 (by decide) 1 rfl (fun _ => rfl)
    simpa [clampPages, optsBothAll] using hc
  · have hc := h.2.2.2.2.2.1 rfl 1 1 rfl rfl (fun _ => rfl) (fun _ => rfl)
    simpa [clampPages, optsBothAll] using hc
